import Mathlib

set_option synthInstance.maxSize 4096

/-!
Shallow embedding of the tennis-court reservation server
(`Server.py`, `server/models.py`, `server/schedule_store.py`,
`server/reservation_manager.py`, `server/auth_manager.py`,
`server/http_handler.py`).

Python dictionaries are modelled as association lists with Python's
update semantics (assignment to an existing key replaces the value in
place, assignment to a fresh key appends it); `dict.get` is modelled by
`lookupA`.  Machine strings are Lean `String`s, Python ints are `Int`.
Operations that can raise a `KeyError` in the source return `Option`.
-/

/-- `dict.get k` on an association list: the value of the first entry
whose key is `k`, or `none`. -/
def lookupA {α β : Type} [DecidableEq α] (k : α) : List (α × β) → Option β
  | [] => none
  | (k', v) :: rest => if k' = k then some v else lookupA k rest

/-- `d[k] = v` on an association list: replace the first entry whose key
is `k`, or append a new entry when the key is absent (Python dict
assignment semantics, insertion order preserved). -/
def setA {α β : Type} [DecidableEq α] (k : α) (v : β) : List (α × β) → List (α × β)
  | [] => [(k, v)]
  | (k', v') :: rest => if k' = k then (k, v) :: rest else (k', v') :: setA k v rest

/-- Python's `str.upper()` (for the basic-latin range the source uses):
uppercase every character.  This is exactly `String.toUpper`
(see `pyUpper_eq_toUpper`), stated over the character list so that the
kernel can evaluate it. -/
def pyUpper (s : String) : String := ⟨s.data.map Char.toUpper⟩

/-! ## `server/models.py` -/

/-- `models.DAYS`. -/
def DAYS : List String := ["MON", "TUE", "WED", "THU", "FRI", "SAT", "SUN"]

/-- `models.HOURS = list(range(9, 23))`. -/
def HOURS : List Int := [9, 10, 11, 12, 13, 14, 15, 16, 17, 18, 19, 20, 21, 22]

/-- `models.is_valid_day`: `day.upper() in DAYS`. -/
def is_valid_day (day : String) : Bool := DAYS.contains (pyUpper day)

/-- `models.is_valid_hour`: `hour in HOURS`. -/
def is_valid_hour (hour : Int) : Bool := HOURS.contains hour

/-- `models.PREDEFINED_USERS = {f"user{i}": str(i) for i in range(1, 11)}`. -/
def PREDEFINED_USERS : List (String × String) :=
  [("user1", "1"), ("user2", "2"), ("user3", "3"), ("user4", "4"), ("user5", "5"),
   ("user6", "6"), ("user7", "7"), ("user8", "8"), ("user9", "9"), ("user10", "10")]

/-- `models.Reservation` (the `__repr__`/`to_dict` helpers are not needed
by any claim). -/
structure Reservation where
  username : String
  day : String
  hour : Int
deriving DecidableEq, Repr

/-! ## `server/schedule_store.py`

The schedule is `{day: {hour: username-or-None}}`; the stored value of an
inner entry is `Option String` (`None` = vacant). -/

/-- One day's inner dict `{hour: username or None}`. -/
abbrev DaySched := List (Int × Option String)

/-- The whole grid `{day: {hour: ...}}`. -/
abbrev Sched := List (String × DaySched)

namespace ScheduleStore

/-- The loop body of `_initialize_schedule`:
`for day in DAYS: self.schedule[day] = {hour: None for hour in HOURS}`. -/
def _initialize_schedule (s : Sched) : Sched :=
  DAYS.foldl (fun acc d => setA d (HOURS.map fun h => (h, (none : Option String))) acc) s

/-- The schedule of a freshly constructed store (`__init__` starts from the
empty dict and runs `_initialize_schedule`). -/
def freshStore : Sched := _initialize_schedule []

/-- `reset_schedule` (the persistence side effect does not change the grid). -/
def reset_schedule (s : Sched) : Sched := _initialize_schedule s

/-- `get_slot`: `self.schedule.get(day, {}).get(hour)`.  Total: a missing
day or hour key yields `none`, never an error. -/
def get_slot (s : Sched) (day : String) (hour : Int) : Option String :=
  (lookupA hour ((lookupA day s).getD [])).join

/-- `is_slot_available`: `get_slot(day, hour) is None`. -/
def is_slot_available (s : Sched) (day : String) (hour : Int) : Bool :=
  (get_slot s day hour).isNone

/-- `reserve_slot`.  `none` models the `KeyError` that
`self.schedule[day][hour] = username` raises when `day` is not a key of
the outer dict (only reachable for a vacant coordinate with an unknown
day, which the manager's validation rules out). -/
def reserve_slot (s : Sched) (day : String) (hour : Int) (username : String) :
    Option (Sched × Bool) :=
  if ¬ is_slot_available s day hour then some (s, false)
  else
    match lookupA day s with
    | none => none
    | some inner => some (setA day (setA hour (some username) inner) s, true)

/-- `ScheduleStore.cancel_reservation`.  When the slot is occupied the day
key necessarily exists, so the `KeyError` of `self.schedule[day][hour] = None`
is unreachable; the `none` lookup branch below is dead code kept total. -/
def cancel_reservation (s : Sched) (day : String) (hour : Int) : Sched × Bool :=
  if is_slot_available s day hour then (s, false)
  else
    match lookupA day s with
    | none => (s, false)
    | some inner => (setA day (setA hour none inner) s, true)

/-- `get_user_reservation_for_day`: the first hour in `HOURS` whose slot
is owned by `username`, as a `Reservation`. -/
def get_user_reservation_for_day (s : Sched) (username : String) (day : String) :
    Option Reservation :=
  (HOURS.find? fun h => get_slot s day h = some username).map
    fun h => ⟨username, day, h⟩

/-- `get_user_reservations`: scan the whole grid in `DAYS × HOURS` order. -/
def get_user_reservations (s : Sched) (username : String) : List Reservation :=
  DAYS.flatMap fun d =>
    (HOURS.filter fun h => get_slot s d h = some username).map fun h => ⟨username, d, h⟩

/-! ### persistence (`_save_to_file` / `_load_from_file`)

`json.dump` turns the inner `int` keys into decimal strings; the snapshot
file is a JSON object of objects, modelled as nested association lists.
-/

/-- The JSON object written by `_save_to_file` (modulo whitespace): the
grid with each inner key replaced by its decimal string. -/
def _save_to_file (s : Sched) : List (String × List (String × Option String)) :=
  s.map fun p => (p.1, p.2.map fun q => (toString q.1, q.2))

/-- `self.schedule[day][hour] = v` for a day that is already a key of the
outer dict (as is every `day in DAYS` after initialization). -/
def setSlot (s : Sched) (day : String) (hour : Int) (v : Option String) : Sched :=
  match lookupA day s with
  | none => s
  | some inner => setA day (setA hour v inner) s

/-- Inner loop of `_load_from_file`:
`if str(hour) in loaded[day]: self.schedule[day][hour] = loaded[day][str(hour)]`. -/
def loadHour (innerF : List (String × Option String)) (day : String)
    (acc : Sched) (hour : Int) : Sched :=
  match lookupA (toString hour) innerF with
  | none => acc
  | some v => setSlot acc day hour v

/-- Outer loop body of `_load_from_file`: `if day in loaded: ...`. -/
def loadDay (f : List (String × List (String × Option String))) (acc : Sched)
    (day : String) : Sched :=
  match lookupA day f with
  | none => acc
  | some innerF => HOURS.foldl (loadHour innerF day) acc

/-- `_load_from_file` applied to a successfully parsed JSON object:
only the keys in `DAYS`, and inside them only the keys `str(hour)` for
`hour in HOURS`, are taken; everything else in the file is ignored. -/
def _load_from_file (s : Sched) (f : List (String × List (String × Option String))) :
    Sched :=
  DAYS.foldl (loadDay f) s

/-- `__init__` with a persistence file: start all-vacant, then load from
the file when it exists (`FileNotFoundError` is swallowed: a missing file
leaves the fresh grid). -/
def initWithFile (f : Option (List (String × List (String × Option String)))) : Sched :=
  match f with
  | none => freshStore
  | some fo => _load_from_file freshStore fo

end ScheduleStore

/-! ## `server/reservation_manager.py` -/

namespace ReservationManager

open ScheduleStore

/-- Message of the invalid-day failure of `make_reservation`. -/
def invalidDayMsg (day : String) : String :=
  "Invalid day: " ++ day ++ ". Must be MON, TUE, WED, THU, FRI, SAT, or SUN."

/-- Message of the invalid-hour failure of `make_reservation`. -/
def invalidHourMsg (hour : Int) : String :=
  "Invalid hour: " ++ toString hour ++ ". Must be between 9 and 22 (09:00-23:00)."

/-- Message of the one-reservation-per-day failure of `make_reservation`. -/
def alreadyBookedMsg (day : String) (hour : Int) : String :=
  "You already have a reservation on " ++ day ++ " at " ++ toString hour ++
    ":00. You can only make one reservation per day."

/-- Message of the slot-taken failure of `make_reservation`; `occupant` is
the `Optional[str]` returned by `get_slot`, printed as Python prints it. -/
def slotTakenMsg (day : String) (hour : Int) (occupant : Option String) : String :=
  "Slot " ++ day ++ " " ++ toString hour ++ ":00-" ++ toString (hour + 1) ++
    ":00 is already reserved by " ++ occupant.getD "None" ++ "."

/-- Success message of `make_reservation`. -/
def reservedMsg (day : String) (hour : Int) : String :=
  "Reservation successful: " ++ day ++ " " ++ toString hour ++ ":00-" ++
    toString (hour + 1) ++ ":00"

/-- `ReservationManager.make_reservation`.  Returns the new grid, the
success flag and the message; `none` models the propagated `KeyError`
of `reserve_slot` (unreachable from a well-formed store). -/
def make_reservation (s : Sched) (username day0 : String) (hour : Int) :
    Option (Sched × Bool × String) :=
  let day := pyUpper day0
  if ¬ is_valid_day day then some (s, false, invalidDayMsg day)
  else if ¬ is_valid_hour hour then some (s, false, invalidHourMsg hour)
  else
    match get_user_reservation_for_day s username day with
    | some existing => some (s, false, alreadyBookedMsg day existing.hour)
    | none =>
      if ¬ is_slot_available s day hour then
        some (s, false, slotTakenMsg day hour (get_slot s day hour))
      else
        match reserve_slot s day hour username with
        | none => none
        | some (s2, true) => some (s2, true, reservedMsg day hour)
        | some (s2, false) =>
          some (s2, false, "Unexpected error: Could not complete reservation.")

/-- Success message of `cancel_reservation`. -/
def cancelledMsg (day : String) (hour : Int) : String :=
  "Cancelled reservation: " ++ day ++ " " ++ toString hour ++ ":00-" ++
    toString (hour + 1) ++ ":00"

/-- Message of the no-reservation failure of `cancel_reservation`. -/
def noReservationMsg (day : String) : String :=
  "You have no reservation on " ++ day ++ "."

/-- `ReservationManager.cancel_reservation`. -/
def cancel_reservation (s : Sched) (username day0 : String) : Sched × Bool × String :=
  let day := pyUpper day0
  if ¬ is_valid_day day then (s, false, "Invalid day: " ++ day)
  else
    match get_user_reservation_for_day s username day with
    | none => (s, false, noReservationMsg day)
    | some r =>
      match ScheduleStore.cancel_reservation s day r.hour with
      | (s2, true) => (s2, true, cancelledMsg day r.hour)
      | (s2, false) => (s2, false, "Unexpected error: Could not cancel reservation.")

/-- `ReservationManager.reset_weekly_schedule` delegates to the store. -/
def reset_weekly_schedule (s : Sched) : Sched := ScheduleStore.reset_schedule s

end ReservationManager

/-! ## `server/auth_manager.py`

Sessions are the dict `active_sessions : token ↦ Session`; the only field
of a `Session` any decision reads is `username`, so sessions are modelled
as `token ↦ username` (the `login_time = datetime.now()` field is
wall-clock metadata never consulted by the code).  `uuid.uuid4()` is an
external entropy source: its output is passed in as the `token`
argument. -/

namespace AuthenticationManager

/-- `authenticate`: reject unknown usernames or mismatched passwords;
otherwise record the session under the freshly generated `token` and
return it.  Note the source performs no uniqueness check on `token`. -/
def authenticate (active_sessions : List (String × String))
    (username password token : String) :
    Option String × List (String × String) :=
  match lookupA username PREDEFINED_USERS with
  | none => (none, active_sessions)
  | some pw =>
    if pw ≠ password then (none, active_sessions)
    else (some token, setA token username active_sessions)

/-- `validate_token`: the username of the session stored under `token`. -/
def validate_token (active_sessions : List (String × String)) (token : String) :
    Option String :=
  lookupA token active_sessions

end AuthenticationManager

/-! ## `server/http_handler.py` -/

namespace HTTPHandler

/-- A parsed HTTP request (`http_handler.HTTPRequest`). -/
structure HTTPRequest where
  method : String
  path : String
  version : String
  headers : List (String × String)
  body : String
  query_params : List (String × String)
deriving DecidableEq, Repr

/-- Split `l` at the first occurrence of the separator `sep`:
`some (before, after)`, or `none` when `sep` does not occur.
For the empty separator every position matches (the callers below always
pass a non-empty one, as Python `str.split` requires). -/
def breakFirst (sep : List Char) : List Char → Option (List Char × List Char)
  | [] => if sep.isEmpty then some ([], []) else none
  | c :: rest =>
    if sep.isPrefixOf (c :: rest) then some ([], (c :: rest).drop sep.length)
    else
      match breakFirst sep rest with
      | none => none
      | some (a, b) => some (c :: a, b)

/-- Python `s.split(sep)` with explicit fuel (structural recursion so
that the kernel can evaluate it; `breakFirst` drops at least one
character per round, so `l.length + 1` rounds always suffice). -/
def pySplitFuel (sep : List Char) : Nat → List Char → List (List Char)
  | 0, l => [l]
  | fuel + 1, l =>
    match breakFirst sep l with
    | none => [l]
    | some (a, b) => a :: pySplitFuel sep fuel b

/-- Python `s.split(sep)` for a non-empty separator `sep1 :: sepRest`:
split at every occurrence; always returns at least one piece; keeps
empty pieces. -/
def pySplit (sep1 : Char) (sepRest : List Char) (l : List Char) :
    List (List Char) :=
  pySplitFuel (sep1 :: sepRest) (l.length + 1) l

/-- Python `s.split(sep, 1)`: the piece before the first occurrence of
`sep` and, when `sep` occurs, the remainder after it. -/
def pySplitOnce (sep : List Char) (l : List Char) :
    List Char × Option (List Char) :=
  match breakFirst sep l with
  | none => (l, none)
  | some (a, b) => (a, some b)

/-- Python `s.strip()` (ASCII whitespace). -/
def pyStrip (l : List Char) : List Char :=
  ((l.dropWhile Char.isWhitespace).reverse.dropWhile Char.isWhitespace).reverse

/-- The query-parameter loop of `parse_request`:
`for param in query_string.split('&'): if '=' in param: k, v = param.split('=', 1)`. -/
def parseQuery (qs : List Char) : List (String × String) :=
  (pySplit '&' [] qs).foldl
    (fun acc param =>
      if param.contains '=' then
        let kv := pySplitOnce ['='] param
        setA (String.mk kv.1) (String.mk (kv.2.getD [])) acc
      else acc)
    []

/-- The header loop of `parse_request`:
`for line in lines[1:]: if ':' in line: k, v = line.split(':', 1)` with
both sides stripped. -/
def parseHeaders (lines : List (List Char)) : List (String × String) :=
  lines.foldl
    (fun acc line =>
      if line.contains ':' then
        let kv := pySplitOnce [':'] line
        setA (String.mk (pyStrip kv.1)) (String.mk (pyStrip (kv.2.getD []))) acc
      else acc)
    []

/-- `HTTPHandler.parse_request`.  The argument is the received buffer
after UTF-8 decoding: `none` stands for a buffer that is not valid UTF-8
(in the source `raw_data.decode('utf-8')` raises and the handler returns
`None`).  All remaining operations are total, so the only other failure
is a request line that does not split into exactly three
space-separated tokens.  (The source's `if not lines` check is dead:
`split` always returns at least one piece.) -/
def parse_request (raw : Option String) : Option HTTPRequest :=
  match raw with
  | none => none
  | some rawStr =>
    let l := rawStr.data
    let hb := pySplitOnce ['\r', '\n', '\r', '\n'] l
    let headerSection := hb.1
    let body := hb.2.getD []
    let lines := pySplit '\r' ['\n'] headerSection
    let requestLine := lines.headD []
    let requestParts := pySplit ' ' [] requestLine
    if requestParts.length ≠ 3 then none
    else
      let method := pyUpper (String.mk (requestParts.headD []))
      let version := String.mk ((requestParts.drop 2).headD [])
      let pathWithQuery := (requestParts.drop 1).headD []
      let pq :=
        if pathWithQuery.contains '?' then
          let pqs := pySplitOnce ['?'] pathWithQuery
          (String.mk pqs.1, parseQuery (pqs.2.getD []))
        else (String.mk pathWithQuery, [])
      some { method := method, path := pq.1, version := version,
             headers := parseHeaders (lines.drop 1), body := String.mk body,
             query_params := pq.2 }

/-- `extract_token`: `Authorization` header value of the shape
`Bearer <token>`. -/
def extract_token (request : HTTPRequest) : Option String :=
  let auth := (lookupA "Authorization" request.headers).getD ""
  if "Bearer ".data.isPrefixOf auth.data then
    some (String.mk (auth.data.drop 7))
  else none

end HTTPHandler

/-! ## `Server.py` endpoint handlers

Only the two reservation endpoints are modelled (the claims are about
them).  A JSON body, when it parses, is a mapping from field names to
JSON scalars; the client only ever sends strings and integers, which is
what `parse_json_body` can deliver to the fields the handler reads. -/

/-- A JSON scalar as read from a request body field. -/
inductive JVal where
  | jstr : String → JVal
  | jint : Int → JVal
deriving DecidableEq, Repr

/-- Python `str(v)` on a JSON scalar. -/
def jvalStr : JVal → String
  | .jstr s => s
  | .jint n => toString n

/-- Value of a digit string, most significant first. -/
def digitsVal (ds : List Char) : Int :=
  ds.foldl (fun a c => a * 10 + ((c.toNat : Int) - 48)) 0

/-- Python `int(v)` on a JSON scalar: an int is itself; a string is
parsed as an optionally signed decimal numeral (surrounding whitespace
allowed), anything else raises `ValueError` (`none`). -/
def jvalInt : JVal → Option Int
  | .jint n => some n
  | .jstr s =>
    let l := HTTPHandler.pyStrip s.data
    match l with
    | '-' :: ds => if ds ≠ [] ∧ ds.all Char.isDigit then some (-(digitsVal ds)) else none
    | '+' :: ds => if ds ≠ [] ∧ ds.all Char.isDigit then some (digitsVal ds) else none
    | ds => if ds ≠ [] ∧ ds.all Char.isDigit then some (digitsVal ds) else none

namespace TennisCourtServer

/-- Python `probe in message` (substring containment). -/
def containsSub (p : List Char) : List Char → Bool
  | [] => p.isEmpty
  | c :: t => p.isPrefixOf (c :: t) || containsSub p t

/-- `probe in message` on strings. -/
def strContains (s probe : String) : Bool := containsSub probe.data s.data

/-- The status-code selection of `handle_make_reservation` for a failed
reservation: 403 for the one-per-day message, 409 for the slot-taken
message, 400 otherwise. -/
def reservation_fail_status (message : String) : Nat :=
  if strContains message "already have a reservation" then 403
  else if strContains message "already reserved" then 409
  else 400

/-- `handle_make_reservation` (after authentication): `body` is the
result of `parse_json_body` (`none` = missing/unparseable body).  The
result is the new grid and the response status and message; `none`
models the propagated `KeyError` (unreachable, see
`ReservationManager.make_reservation`). -/
def handle_make_reservation (s : Sched) (username : String)
    (body : Option (List (String × JVal))) : Option (Sched × Nat × String) :=
  match body with
  | none => some (s, 400, "Missing 'day' or 'hour' in request body")
  | some b =>
    match lookupA "day" b, lookupA "hour" b with
    | some dv, some hv =>
      let day := pyUpper (jvalStr dv)
      match jvalInt hv with
      | none => some (s, 400, "Invalid hour format. Must be an integer (9-22)")
      | some hour =>
        match ReservationManager.make_reservation s username day hour with
        | none => none
        | some (s2, true, message) => some (s2, 200, message)
        | some (s2, false, message) =>
          some (s2, reservation_fail_status message, message)
    | _, _ => some (s, 400, "Missing 'day' or 'hour' in request body")

/-- `handle_cancel_reservation` (after authentication): `day0` is the
day extracted from the query parameter or trailing path segment, `""`
when neither is present.  400 for a missing or invalid day, 404 when no
reservation exists, 200 on success. -/
def handle_cancel_reservation (s : Sched) (username day0 : String) :
    Sched × Nat × String :=
  let day := pyUpper day0
  if day.data.isEmpty then (s, 400, "Missing 'day' parameter")
  else
    match ReservationManager.cancel_reservation s username day with
    | (s2, true, message) => (s2, 200, message)
    | (s2, false, message) =>
      if strContains message "Invalid day" then (s2, 400, message)
      else (s2, 404, message)

end TennisCourtServer

/-! ## The unsynchronized reservation race (`Server.py` threading)

`Server.py` services each connection on its own thread and takes no lock
around the grid, so the check-then-write sequence of
`make_reservation`/`reserve_slot` can interleave between threads.  A
thread's `make_reservation` call decomposes into the reads it performs
(validation, the one-per-day scan, and the two vacancy checks — one in
the manager, one in `reserve_slot`) followed by the single write
`self.schedule[day][hour] = username`. -/

namespace Race

open ScheduleStore

/-- Every read `make_reservation(username, day, hour)` performs before
`reserve_slot` reaches its write, evaluated against one grid state: both
the manager's checks and `reserve_slot`'s own vacancy re-check. -/
def observeChecksPass (s : Sched) (username day : String) (hour : Int) : Bool :=
  is_valid_day day && is_valid_hour hour &&
    (get_user_reservation_for_day s username day).isNone &&
    is_slot_available s day hour && is_slot_available s day hour

/-- The single mutation `self.schedule[day][hour] = username` performed
by `reserve_slot` after its checks pass. -/
def write (s : Sched) (day : String) (hour : Int) (username : String) : Sched :=
  setSlot s day hour (some username)

/-- The interleaving `checks₁; checks₂; write₁; write₂` of two
concurrent `make_reservation` calls, legal because the source holds no
lock.  Returns each thread's outcome (`true` = it passed every check,
wrote, and reported success) and the final grid. -/
def interleaved (s0 : Sched) (u1 u2 day : String) (hour : Int) :
    Bool × Bool × Sched :=
  let c1 := observeChecksPass s0 u1 day hour
  let c2 := observeChecksPass s0 u2 day hour
  let s1 := if c1 then write s0 day hour u1 else s0
  let s2 := if c2 then write s1 day hour u2 else s1
  (c1, c2, s2)

end Race

/-! ## Derived notions the specification speaks about -/

/-- Well-formed grid: the key structure every reachable store has — the
outer keys are exactly `DAYS` (in order) and every inner key list is
exactly `HOURS` (in order), as `_initialize_schedule` creates them. -/
def WF (s : Sched) : Prop :=
  s.map Prod.fst = DAYS ∧ ∀ p ∈ s, p.2.map Prod.fst = HOURS

instance : DecidablePred WF := fun s => by
  unfold WF; infer_instance

/-- Number of slots of day `day` owned by `username`. -/
def countOwned (s : Sched) (username day : String) : Nat :=
  (HOURS.filter fun h => ScheduleStore.get_slot s day h = some username).length

/-- The one-reservation-per-day invariant: every user owns at most one
slot on every day. -/
def OneSlotPerDay (s : Sched) : Prop :=
  ∀ username day : String, countOwned s username day ≤ 1

/-- Does the character `a` occur immediately followed by `b`? (Helper to
refute substring containment: an occurring substring forces each of its
adjacent character pairs to occur.) -/
def hasPair (a b : Char) : List Char → Bool
  | [] => false
  | [_] => false
  | x :: y :: t => (x = a && y = b) || hasPair a b (y :: t)

/-- The number of space-separated tokens of the request line (the first
line of the part of the buffer before the first blank line) — the
quantity §4.1 of the specification says must be exactly 3. -/
def request_line_token_count (s : String) : Nat :=
  (HTTPHandler.pySplit ' ' []
    ((HTTPHandler.pySplit '\r' ['\n']
      (HTTPHandler.pySplitOnce ['\r', '\n', '\r', '\n'] s.data).1).headD [])).length

/-! ## Quick sanity checks of the embedding (executable) -/

/-- A fresh grid has WED 14 vacant. -/
example : ScheduleStore.get_slot ScheduleStore.freshStore "WED" 14 = none := by decide

example :
    (ReservationManager.make_reservation ScheduleStore.freshStore "user1" "WED" 14).map
      (fun r => r.2.1) = some true := by decide

/-! ## Lemmas: association lists -/

theorem pyUpper_eq_toUpper (s : String) : pyUpper s = s.toUpper := by
  simp [pyUpper, String.toUpper, String.map_eq]

theorem lookupA_setA_self {α β : Type} [DecidableEq α] (k : α) (v : β)
    (l : List (α × β)) : lookupA k (setA k v l) = some v := by
  induction l with
  | nil => simp [setA, lookupA]
  | cons p rest ih =>
    by_cases h : p.1 = k
    · simp [setA, lookupA, h]
    · simp [setA, lookupA, h, ih]

theorem lookupA_setA_ne {α β : Type} [DecidableEq α] {k k' : α} (v : β)
    (l : List (α × β)) (h : k' ≠ k) :
    lookupA k (setA k' v l) = lookupA k l := by
  induction l with
  | nil => simp [setA, lookupA, h]
  | cons p rest ih =>
    by_cases hp : p.1 = k'
    · simp [setA, lookupA, hp, h]
    · by_cases hk : p.1 = k
      · simp [setA, lookupA, hp, hk, Ne.symm h]
      · simp [setA, lookupA, hp, hk, ih]

theorem keys_setA_of_mem {α β : Type} [DecidableEq α] {k : α} (v : β)
    {l : List (α × β)} (h : k ∈ l.map Prod.fst) :
    (setA k v l).map Prod.fst = l.map Prod.fst := by
  induction l with
  | nil => simp at h
  | cons p rest ih =>
    by_cases hp : p.1 = k
    · simp [setA, hp]
    · simp only [List.map_cons, List.mem_cons] at h
      rcases h with h | h
    
      · exact absurd h.symm hp
      · simp [setA, hp, ih h]

theorem lookupA_eq_none_iff {α β : Type} [DecidableEq α] {k : α}
    {l : List (α × β)} : lookupA k l = none ↔ k ∉ l.map Prod.fst := by
  induction l with
  | nil => simp [lookupA]
  | cons p rest ih =>
    by_cases hp : p.1 = k
    · simp [lookupA, hp]
    · simp [lookupA, hp, ih, Ne.symm hp]

theorem lookupA_isSome_of_mem {α β : Type} [DecidableEq α] {k : α}
    {l : List (α × β)} (h : k ∈ l.map Prod.fst) : (lookupA k l).isSome := by
  cases hl : lookupA k l with
  | none => exact absurd (lookupA_eq_none_iff.mp hl) (not_not_intro h)
  | some v => rfl

theorem mem_of_lookupA_eq_some {α β : Type} [DecidableEq α] {k : α} {v : β}
    {l : List (α × β)} (h : lookupA k l = some v) : (k, v) ∈ l := by
  induction l with
  | nil => simp [lookupA] at h
  | cons p rest ih =>
    by_cases hp : p.1 = k
    · rcases p with ⟨a, b⟩
      subst hp
      rw [lookupA, if_pos rfl] at h
      cases h
      exact List.mem_cons_self _ _
    · rw [lookupA, if_neg hp] at h
      exact List.mem_cons_of_mem _ (ih h)

/-! ## Lemmas: `str.upper()` -/

theorem toNat_ofNat_of_valid {n : Nat} (h : n.isValidChar) :
    (Char.ofNat n).toNat = n := by
  simp only [Char.ofNat, dif_pos h, Char.ofNatAux, Char.toNat]
  simp [UInt32.toNat, BitVec.toNat_ofNatLt]

theorem char_toUpper_not_lower (c : Char) :
    ¬ (97 ≤ (Char.toUpper c).toNat ∧ (Char.toUpper c).toNat ≤ 122) := by
  simp only [Char.toUpper]
  split
  · rename_i h
    have hval : (c.toNat - 32).isValidChar := by
      left
      omega
    have := toNat_ofNat_of_valid hval
    omega
  · omega

theorem char_toUpper_idem (c : Char) :
    Char.toUpper (Char.toUpper c) = Char.toUpper c := by
  have := char_toUpper_not_lower c
  rw [Char.toUpper]
  split
  · rename_i h
    exact absurd (by omega) this
  · rfl

theorem pyUpper_idem (s : String) : pyUpper (pyUpper s) = pyUpper s := by
  have hmap : ∀ l : List Char,
      l.map (fun c => Char.toUpper (Char.toUpper c)) = l.map Char.toUpper := by
    intro l
    induction l with
    | nil => rfl
    | cons c t ih => simp [char_toUpper_idem, ih]
  simp [pyUpper, Function.comp_def, hmap]

theorem pyUpper_no_lower {s : String} {c : Char} (h : c ∈ (pyUpper s).data) :
    ¬ (97 ≤ c.toNat ∧ c.toNat ≤ 122) := by
  simp only [pyUpper, List.mem_map] at h
  obtain ⟨c0, _, rfl⟩ := h
  exact char_toUpper_not_lower c0

theorem is_valid_day_pyUpper (d : String) :
    is_valid_day (pyUpper d) = is_valid_day d := by
  simp [is_valid_day, pyUpper_idem]

theorem pyUpper_of_mem_DAYS {d : String} (h : d ∈ DAYS) : pyUpper d = d := by
  fin_cases h <;> decide

theorem is_valid_hour_iff {h : Int} : is_valid_hour h = true ↔ 9 ≤ h ∧ h ≤ 22 := by
  rw [is_valid_hour, List.contains_iff_exists_mem_beq]
  constructor
  · rintro ⟨x, hx, hbeq⟩
    have : h = x := by simpa using hbeq
    subst this
    rw [HOURS] at hx
    simp only [List.mem_cons, List.not_mem_nil, or_false] at hx
    omega
  · intro hb
    refine ⟨h, ?_, by simp⟩
    rw [HOURS]
    simp only [List.mem_cons, List.not_mem_nil, or_false]
    omega

theorem mem_HOURS_iff {h : Int} : h ∈ HOURS ↔ 9 ≤ h ∧ h ≤ 22 := by
  simp only [HOURS, List.mem_cons, List.not_mem_nil, or_false]
  omega

/-! ## Lemmas: grid structure -/

theorem mem_setA {α β : Type} [DecidableEq α] {k : α} {v : β}
    {l : List (α × β)} {q : α × β} :
    q ∈ setA k v l → q = (k, v) ∨ q ∈ l := by
  induction l with
  | nil => intro h; simpa [setA] using h
  | cons p rest ih =>
    intro h
    by_cases hp : p.1 = k
    · rw [setA, if_pos hp, List.mem_cons] at h
      rcases h with h | h
      · exact Or.inl h
      · exact Or.inr (List.mem_cons_of_mem _ h)
    · rw [setA, if_neg hp, List.mem_cons] at h
      rcases h with h | h
      · exact Or.inr (by rw [h]; exact List.mem_cons_self _ _)
      · rcases ih h with h' | h'
        · exact Or.inl h'
        · exact Or.inr (List.mem_cons_of_mem _ h')

theorem WF_lookup_day {s : Sched} {d : String} (hWF : WF s) (hd : d ∈ DAYS) :
    ∃ inner, lookupA d s = some inner ∧ inner.map Prod.fst = HOURS := by
  have hmem : d ∈ s.map Prod.fst := by rw [hWF.1]; exact hd
  cases hl : lookupA d s with
  | none => exact absurd (lookupA_eq_none_iff.mp hl) (not_not_intro hmem)
  | some inner =>
    exact ⟨inner, rfl, hWF.2 _ (mem_of_lookupA_eq_some hl)⟩

theorem get_slot_none_of_day {s : Sched} {d : String} (hWF : WF s)
    (hd : d ∉ DAYS) (h : Int) : ScheduleStore.get_slot s d h = none := by
  have : lookupA d s = none := by
    rw [lookupA_eq_none_iff, hWF.1]
    exact hd
  simp [ScheduleStore.get_slot, this, lookupA]

theorem get_slot_none_of_hour {s : Sched} {d : String} {h : Int} (hWF : WF s)
    (hh : h ∉ HOURS) : ScheduleStore.get_slot s d h = none := by
  cases hl : lookupA d s with
  | none => simp [ScheduleStore.get_slot, hl, lookupA]
  | some inner =>
    have hkeys : inner.map Prod.fst = HOURS := hWF.2 _ (mem_of_lookupA_eq_some hl)
    have : lookupA h inner = none := by
      rw [lookupA_eq_none_iff, hkeys]
      exact hh
    simp [ScheduleStore.get_slot, hl, this]

theorem day_mem_of_get_slot_some {s : Sched} {d : String} {h : Int} {u : String}
    (hWF : WF s) (hs : ScheduleStore.get_slot s d h = some u) : d ∈ DAYS := by
  by_contra hd
  rw [get_slot_none_of_day hWF hd] at hs
  cases hs

theorem hour_mem_of_get_slot_some {s : Sched} {d : String} {h : Int} {u : String}
    (hWF : WF s) (hs : ScheduleStore.get_slot s d h = some u) : h ∈ HOURS := by
  by_contra hh
  rw [get_slot_none_of_hour hWF hh] at hs
  cases hs

theorem keys_setSlot (s : Sched) (d : String) (h : Int) (v : Option String) :
    (ScheduleStore.setSlot s d h v).map Prod.fst = s.map Prod.fst := by
  rw [ScheduleStore.setSlot]
  cases hl : lookupA d s with
  | none => rfl
  | some inner =>
    have : d ∈ s.map Prod.fst := by
      by_contra hd
      rw [← lookupA_eq_none_iff] at hd
      rw [hd] at hl
      cases hl
    exact keys_setA_of_mem _ this

theorem WF_setSlot {s : Sched} {d : String} {h : Int} (v : Option String)
    (hWF : WF s) (hh : h ∈ HOURS) : WF (ScheduleStore.setSlot s d h v) := by
  refine ⟨by rw [keys_setSlot, hWF.1], ?_⟩
  intro p hp
  rw [ScheduleStore.setSlot] at hp
  cases hl : lookupA d s with
  | none => rw [hl] at hp; exact hWF.2 _ hp
  | some inner =>
    rw [hl] at hp
    have hinner : inner.map Prod.fst = HOURS := hWF.2 _ (mem_of_lookupA_eq_some hl)
    rcases mem_setA hp with h' | h'
    · subst h'
      have hmem : h ∈ inner.map Prod.fst := by rw [hinner]; exact hh
      simpa using (keys_setA_of_mem v hmem).trans hinner
    · exact hWF.2 _ h'

theorem get_slot_setSlot_same {s : Sched} {d : String} {h : Int}
    {inner : DaySched} (v : Option String) (hl : lookupA d s = some inner) :
    ScheduleStore.get_slot (ScheduleStore.setSlot s d h v) d h = v := by
  rw [ScheduleStore.setSlot, hl, ScheduleStore.get_slot,
    lookupA_setA_self, Option.getD_some, lookupA_setA_self]
  rfl

theorem get_slot_setSlot_ne (s : Sched) (d : String) (h : Int)
    (v : Option String) {d' : String} {h' : Int}
    (hne : ¬ (d' = d ∧ h' = h)) :
    ScheduleStore.get_slot (ScheduleStore.setSlot s d h v) d' h' =
      ScheduleStore.get_slot s d' h' := by
  rw [ScheduleStore.setSlot]
  cases hl : lookupA d s with
  | none => rfl
  | some inner =>
    by_cases hd : d' = d
    · subst hd
      have hh : h' ≠ h := fun he => hne ⟨rfl, he⟩
      rw [ScheduleStore.get_slot, lookupA_setA_self, Option.getD_some,
        lookupA_setA_ne _ _ (Ne.symm hh), ScheduleStore.get_slot, hl,
        Option.getD_some]
    · rw [ScheduleStore.get_slot, lookupA_setA_ne _ _ (fun he => hd he.symm),
        ScheduleStore.get_slot]

theorem get_slot_none_of_all_none {s : Sched}
    (hall : ∀ p ∈ s, ∀ q ∈ p.2, q.2 = none) (d : String) (h : Int) :
    ScheduleStore.get_slot s d h = none := by
  rw [ScheduleStore.get_slot]
  cases hl : lookupA d s with
  | none => simp [lookupA]
  | some inner =>
    cases hi : lookupA h inner with
    | none => simp [hi]
    | some v =>
      have : v = none :=
        hall _ (mem_of_lookupA_eq_some hl) _ (mem_of_lookupA_eq_some hi)
      simp [hi, this]

theorem WF_fresh : WF ScheduleStore.freshStore := by decide

theorem get_slot_fresh (d : String) (h : Int) :
    ScheduleStore.get_slot ScheduleStore.freshStore d h = none :=
  get_slot_none_of_all_none (by decide) d h

/-! ## Lemmas: initialization and reset -/

theorem sched_shape {s : Sched} (h : s.map Prod.fst = DAYS) :
    ∃ i1 i2 i3 i4 i5 i6 i7, s =
      [("MON", i1), ("TUE", i2), ("WED", i3), ("THU", i4),
       ("FRI", i5), ("SAT", i6), ("SUN", i7)] := by
  rcases s with _ | ⟨⟨d1, v1⟩, s⟩
  · simp [DAYS] at h
  rcases s with _ | ⟨⟨d2, v2⟩, s⟩
  · simp [DAYS] at h
  rcases s with _ | ⟨⟨d3, v3⟩, s⟩
  · simp [DAYS] at h
  rcases s with _ | ⟨⟨d4, v4⟩, s⟩
  · simp [DAYS] at h
  rcases s with _ | ⟨⟨d5, v5⟩, s⟩
  · simp [DAYS] at h
  rcases s with _ | ⟨⟨d6, v6⟩, s⟩
  · simp [DAYS] at h
  rcases s with _ | ⟨⟨d7, v7⟩, s⟩
  · simp [DAYS] at h
  simp only [List.map_cons, DAYS, List.cons.injEq] at h
  obtain ⟨rfl, rfl, rfl, rfl, rfl, rfl, rfl, hrest⟩ := h
  obtain rfl : s = [] := List.map_eq_nil_iff.mp hrest
  exact ⟨v1, v2, v3, v4, v5, v6, v7, rfl⟩

theorem initialize_of_keys {s : Sched} (h : s.map Prod.fst = DAYS) :
    ScheduleStore._initialize_schedule s = ScheduleStore.freshStore := by
  obtain ⟨i1, i2, i3, i4, i5, i6, i7, rfl⟩ := sched_shape h
  rfl

/-! ## Lemmas: counting -/

theorem filter_length_le_one_of_unique {α : Type} {l : List α} {p : α → Bool}
    (a : α) (hnd : l.Nodup) (hu : ∀ x ∈ l, p x = true → x = a) :
    (l.filter p).length ≤ 1 := by
  induction l with
  | nil => simp
  | cons x t ih =>
    rw [List.filter_cons]
    by_cases hx : p x = true
    · rw [if_pos hx]
      have hxa : x = a := hu x (List.mem_cons_self _ _) hx
      have ht : t.filter p = [] := by
        rw [List.filter_eq_nil_iff]
        intro y hy hpy
        have hya : y = a := hu y (List.mem_cons_of_mem _ hy) hpy
        have : x ∈ t := by rw [hxa, ← hya]; exact hy
        exact (List.nodup_cons.mp hnd).1 this
      simp [ht]
    · rw [if_neg hx]
      exact ih (List.nodup_cons.mp hnd).2
        (fun y hy hpy => hu y (List.mem_cons_of_mem _ hy) hpy)

theorem filter_length_mono_of_imp {α : Type} {l : List α} {p q : α → Bool}
    (himp : ∀ x ∈ l, p x = true → q x = true) :
    (l.filter p).length ≤ (l.filter q).length := by
  induction l with
  | nil => simp
  | cons x t ih =>
    have iht := ih (fun y hy => himp y (List.mem_cons_of_mem _ hy))
    rw [List.filter_cons, List.filter_cons]
    by_cases hx : p x = true
    · rw [if_pos hx, if_pos (himp x (List.mem_cons_self _ _) hx)]
      simpa using iht
    · rw [if_neg hx]
      split
      · exact Nat.le_succ_of_le iht
      · exact iht

/-! ## Lemmas: `get_user_reservation_for_day` -/

theorem gurfd_eq_none_iff {s : Sched} {u d : String} :
    ScheduleStore.get_user_reservation_for_day s u d = none ↔
      ∀ h ∈ HOURS, ScheduleStore.get_slot s d h ≠ some u := by
  simp [ScheduleStore.get_user_reservation_for_day]

theorem gurfd_eq_some {s : Sched} {u d : String} {r : Reservation}
    (h : ScheduleStore.get_user_reservation_for_day s u d = some r) :
    r.username = u ∧ r.day = d ∧ r.hour ∈ HOURS ∧
      ScheduleStore.get_slot s d r.hour = some u := by
  rw [ScheduleStore.get_user_reservation_for_day] at h
  cases hf : HOURS.find? fun h => ScheduleStore.get_slot s d h = some u with
  | none => rw [hf] at h; cases h
  | some h0 =>
    rw [hf] at h
    cases h
    refine ⟨rfl, rfl, List.mem_of_find?_eq_some hf, ?_⟩
    have := List.find?_some hf
    simpa using this

theorem gurfd_isSome_of {s : Sched} {u d : String} {h0 : Int}
    (hh : h0 ∈ HOURS) (hs : ScheduleStore.get_slot s d h0 = some u) :
    ∃ r, ScheduleStore.get_user_reservation_for_day s u d = some r := by
  rw [ScheduleStore.get_user_reservation_for_day]
  have : (HOURS.find? fun h => ScheduleStore.get_slot s d h = some u).isSome := by
    rw [List.find?_isSome]
    exact ⟨h0, hh, by simp [hs]⟩
  cases hf : HOURS.find? fun h => ScheduleStore.get_slot s d h = some u with
  | none => rw [hf] at this; cases this
  | some h1 => exact ⟨⟨u, d, h1⟩, by simp⟩

/-! ## Lemmas: store mutation wrappers -/

theorem reserve_slot_success {s : Sched} {day : String} {hour : Int}
    {inner : DaySched} (u : String) (hl : lookupA day s = some inner)
    (hav : ScheduleStore.is_slot_available s day hour = true) :
    ScheduleStore.reserve_slot s day hour u =
      some (ScheduleStore.setSlot s day hour (some u), true) := by
  rw [ScheduleStore.reserve_slot, if_neg (by simp [hav]), hl,
    ScheduleStore.setSlot, hl]

theorem cancel_slot_occupied {s : Sched} {day : String} {hour : Int}
    {inner : DaySched} (hl : lookupA day s = some inner)
    (hocc : ScheduleStore.is_slot_available s day hour = false) :
    ScheduleStore.cancel_reservation s day hour =
      (ScheduleStore.setSlot s day hour none, true) := by
  rw [ScheduleStore.cancel_reservation, if_neg (by simp [hocc]), hl,
    ScheduleStore.setSlot, hl]

/-! ## Lemmas: substring containment -/

theorem isPrefixOf_append_self (p r : List Char) : p.isPrefixOf (p ++ r) = true := by
  induction p with
  | nil => simp [List.isPrefixOf]
  | cons c t ih => simp [List.isPrefixOf, ih]

theorem containsSub_of_here {p l : List Char}
    (h : p.isPrefixOf l = true) : TennisCourtServer.containsSub p l = true := by
  cases l with
  | nil =>
    cases p with
    | nil => rfl
    | cons c t => simp [List.isPrefixOf] at h
  | cons c t => simp [TennisCourtServer.containsSub, h]

theorem containsSub_cons_of {p l : List Char} (c : Char)
    (h : TennisCourtServer.containsSub p l = true) :
    TennisCourtServer.containsSub p (c :: l) = true := by
  simp [TennisCourtServer.containsSub, h]

theorem containsSub_append_of {p l2 : List Char} (l1 : List Char)
    (h : TennisCourtServer.containsSub p l2 = true) :
    TennisCourtServer.containsSub p (l1 ++ l2) = true := by
  induction l1 with
  | nil => simpa using h
  | cons c t ih => exact containsSub_cons_of c ih

/-! ## Claim theorems -/

/-- C9: `get_slot` and `is_slot_available` are total Lean functions (they
are modelled without any error case, mirroring `dict.get` which never
raises), and on every coordinate outside the 7×14 grid of a well-formed
store `get_slot` returns `none`, so `is_slot_available` reports the
nonexistent slot as available. -/
theorem c9_get_slot_total_outside_grid (s : Sched) (hWF : WF s)
    (day : String) (hour : Int) (hout : day ∉ DAYS ∨ hour ∉ HOURS) :
    ScheduleStore.get_slot s day hour = none ∧
      ScheduleStore.is_slot_available s day hour = true := by
  have hnone : ScheduleStore.get_slot s day hour = none := by
    rcases hout with h | h
    · exact get_slot_none_of_day hWF h hour
    · exact get_slot_none_of_hour hWF h
  exact ⟨hnone, by simp [ScheduleStore.is_slot_available, hnone]⟩

/-- Witness for C9 at the fresh store and the out-of-grid coordinate
("XYZ", 5). -/
theorem c9_witness :
    ScheduleStore.get_slot ScheduleStore.freshStore "XYZ" 5 = none ∧
      ScheduleStore.is_slot_available ScheduleStore.freshStore "XYZ" 5 = true := by
  have h := c9_get_slot_total_outside_grid ScheduleStore.freshStore (by decide)
    "XYZ" 5 (by decide)
  exact ⟨h.1, h.2⟩

theorem is_valid_day_iff_mem (d : String) :
    is_valid_day (pyUpper d) = true ↔ pyUpper d ∈ DAYS := by
  rw [is_valid_day, pyUpper_idem]
  simp [List.contains]

/-- C2: `make_reservation` applies its four checks in order — invalid
day (after upper-casing), then invalid hour (hour outside `[9, 22]`),
then the caller already owning a slot that day, then the requested slot
being non-vacant — failing with the corresponding message and an
unchanged grid, and only when all four pass does it set the slot's
owner to the caller and report success, leaving every other slot
unchanged. -/
theorem c2_make_reservation_checks (s : Sched) (hWF : WF s)
    (u day0 : String) (hour : Int) :
    (pyUpper day0 ∉ DAYS →
      ReservationManager.make_reservation s u day0 hour =
        some (s, false, ReservationManager.invalidDayMsg (pyUpper day0))) ∧
    (pyUpper day0 ∈ DAYS → ¬ (9 ≤ hour ∧ hour ≤ 22) →
      ReservationManager.make_reservation s u day0 hour =
        some (s, false, ReservationManager.invalidHourMsg hour)) ∧
    (pyUpper day0 ∈ DAYS → 9 ≤ hour ∧ hour ≤ 22 →
      (∃ h0, ScheduleStore.get_slot s (pyUpper day0) h0 = some u) →
      ∃ h0, ScheduleStore.get_slot s (pyUpper day0) h0 = some u ∧
        ReservationManager.make_reservation s u day0 hour =
          some (s, false, ReservationManager.alreadyBookedMsg (pyUpper day0) h0)) ∧
    (pyUpper day0 ∈ DAYS → 9 ≤ hour ∧ hour ≤ 22 →
      (∀ h0, ScheduleStore.get_slot s (pyUpper day0) h0 ≠ some u) →
      ∀ w, ScheduleStore.get_slot s (pyUpper day0) hour = some w →
        ReservationManager.make_reservation s u day0 hour =
          some (s, false,
            ReservationManager.slotTakenMsg (pyUpper day0) hour (some w))) ∧
    (pyUpper day0 ∈ DAYS → 9 ≤ hour ∧ hour ≤ 22 →
      (∀ h0, ScheduleStore.get_slot s (pyUpper day0) h0 ≠ some u) →
      ScheduleStore.get_slot s (pyUpper day0) hour = none →
        ReservationManager.make_reservation s u day0 hour =
          some (ScheduleStore.setSlot s (pyUpper day0) hour (some u), true,
            ReservationManager.reservedMsg (pyUpper day0) hour) ∧
        ScheduleStore.get_slot
          (ScheduleStore.setSlot s (pyUpper day0) hour (some u))
          (pyUpper day0) hour = some u ∧
        ∀ d' h', ¬ (d' = pyUpper day0 ∧ h' = hour) →
          ScheduleStore.get_slot
            (ScheduleStore.setSlot s (pyUpper day0) hour (some u)) d' h' =
            ScheduleStore.get_slot s d' h') := by
  refine ⟨?_, ?_, ?_, ?_, ?_⟩
  · intro hd
    have hfalse : is_valid_day (pyUpper day0) = false :=
      Bool.eq_false_iff.mpr (fun ht => hd ((is_valid_day_iff_mem day0).mp ht))
    simp [ReservationManager.make_reservation, hfalse]
  · intro hd hh
    have hvalid : is_valid_day (pyUpper day0) = true := (is_valid_day_iff_mem day0).mpr hd
    have hhour : is_valid_hour hour = false :=
      Bool.eq_false_iff.mpr (fun ht => hh (is_valid_hour_iff.mp ht))
    simp [ReservationManager.make_reservation, hvalid, hhour]
  · intro hd hh hex
    obtain ⟨h0, hown⟩ := hex
    have hvalid : is_valid_day (pyUpper day0) = true := (is_valid_day_iff_mem day0).mpr hd
    have hhour : is_valid_hour hour = true := is_valid_hour_iff.mpr hh
    have hmem : h0 ∈ HOURS := hour_mem_of_get_slot_some hWF hown
    obtain ⟨r, hr⟩ := gurfd_isSome_of hmem hown
    obtain ⟨hu, hdy, hrmem, hslot⟩ := gurfd_eq_some hr
    refine ⟨r.hour, hslot, ?_⟩
    simp [ReservationManager.make_reservation, hvalid, hhour, hr]
  · intro hd hh hno w hw
    have hvalid : is_valid_day (pyUpper day0) = true := (is_valid_day_iff_mem day0).mpr hd
    have hhour : is_valid_hour hour = true := is_valid_hour_iff.mpr hh
    have hgur : ScheduleStore.get_user_reservation_for_day s u (pyUpper day0) = none :=
      gurfd_eq_none_iff.mpr (fun h _ => hno h)
    have hav : ScheduleStore.is_slot_available s (pyUpper day0) hour = false := by
      simp [ScheduleStore.is_slot_available, hw]
    simp [ReservationManager.make_reservation, hvalid, hhour, hgur, hav, hw]
  · intro hd hh hno hvac
    have hvalid : is_valid_day (pyUpper day0) = true := (is_valid_day_iff_mem day0).mpr hd
    have hhour : is_valid_hour hour = true := is_valid_hour_iff.mpr hh
    have hgur : ScheduleStore.get_user_reservation_for_day s u (pyUpper day0) = none :=
      gurfd_eq_none_iff.mpr (fun h _ => hno h)
    have hav : ScheduleStore.is_slot_available s (pyUpper day0) hour = true := by
      simp [ScheduleStore.is_slot_available, hvac]
    obtain ⟨inner, hl, _⟩ := WF_lookup_day hWF hd
    have hrs := reserve_slot_success u hl hav
    refine ⟨?_, get_slot_setSlot_same _ hl,
      fun d' h' hne => get_slot_setSlot_ne _ _ _ _ hne⟩
    simp [ReservationManager.make_reservation, hvalid, hhour, hgur, hav, hrs]

/-- Witness for C2: on the fresh grid, `make_reservation("user1", "wed", 14)`
(lower-case day) passes all four checks and books WED 14. -/
theorem c2_witness :
    ReservationManager.make_reservation ScheduleStore.freshStore "user1" "wed" 14 =
      some (ScheduleStore.setSlot ScheduleStore.freshStore "WED" 14 (some "user1"),
        true, ReservationManager.reservedMsg "WED" 14) := by
  have h := (c2_make_reservation_checks ScheduleStore.freshStore (by decide)
    "user1" "wed" 14).2.2.2.2
  have hup : pyUpper "wed" = "WED" := by decide
  rw [hup] at h
  exact (h (by decide) (by decide)
    (fun h0 => by rw [get_slot_fresh]; exact fun hc => Option.noConfusion hc)
    (get_slot_fresh _ _)).1

theorem containsSub_nil_probe (l : List Char) :
    TennisCourtServer.containsSub [] l = true := by
  cases l <;> simp [TennisCourtServer.containsSub, List.isPrefixOf]

theorem isPrefixOf_append_of {p l1 : List Char} (l2 : List Char)
    (h : p.isPrefixOf l1 = true) : p.isPrefixOf (l1 ++ l2) = true := by
  induction p generalizing l1 with
  | nil => simp [List.isPrefixOf]
  | cons c t ih =>
    cases l1 with
    | nil => simp [List.isPrefixOf] at h
    | cons c1 t1 =>
      simp only [List.isPrefixOf, Bool.and_eq_true] at h
      simp only [List.cons_append, List.isPrefixOf, Bool.and_eq_true]
      exact ⟨h.1, ih h.2⟩

theorem containsSub_append_left {p l1 : List Char} (l2 : List Char)
    (h : TennisCourtServer.containsSub p l1 = true) :
    TennisCourtServer.containsSub p (l1 ++ l2) = true := by
  induction l1 with
  | nil =>
    have : p = [] := by
      cases p with
      | nil => rfl
      | cons c t => simp [TennisCourtServer.containsSub] at h
    subst this
    exact containsSub_nil_probe l2
  | cons c t ih =>
    rw [TennisCourtServer.containsSub, Bool.or_eq_true] at h
    rcases h with h | h
    · exact containsSub_of_here (isPrefixOf_append_of l2 h)
    · exact containsSub_cons_of c (ih h)

/-- C10: a user who currently owns a slot and re-requests that very same
slot is rejected by the one-reservation-per-day check (which runs before
the vacancy check and matches the caller's own reservation): the call
fails with the already-have-a-reservation message — which the endpoint
maps to 403 — not with the slot-taken message, and the grid is
unchanged. -/
theorem c10_rereserve_own_slot (s : Sched) (hWF : WF s) (u d : String)
    (h : Int) (hown : ScheduleStore.get_slot s d h = some u) :
    ∃ h0, h0 ∈ HOURS ∧ ScheduleStore.get_slot s d h0 = some u ∧
      ReservationManager.make_reservation s u d h =
        some (s, false, ReservationManager.alreadyBookedMsg d h0) ∧
      TennisCourtServer.reservation_fail_status
        (ReservationManager.alreadyBookedMsg d h0) = 403 := by
  have hd : d ∈ DAYS := day_mem_of_get_slot_some hWF hown
  have hdm : h ∈ HOURS := hour_mem_of_get_slot_some hWF hown
  have hup : pyUpper d = d := pyUpper_of_mem_DAYS hd
  have hown' : ScheduleStore.get_slot s (pyUpper d) h = some u := by
    rw [hup]; exact hown
  obtain ⟨r, hr⟩ := gurfd_isSome_of hdm hown'
  obtain ⟨hu, hdy, hrmem, hslot⟩ := gurfd_eq_some hr
  rw [hup] at hr hslot
  have hvd : is_valid_day (pyUpper d) = true := by
    rw [is_valid_day, pyUpper_idem, hup]
    simp [List.contains]
    exact hd
  have hhour : is_valid_hour h = true :=
    is_valid_hour_iff.mpr (mem_HOURS_iff.mp hdm)
  refine ⟨r.hour, hrmem, hslot, ?_, ?_⟩
  · rw [ReservationManager.make_reservation]
    rw [hup] at hvd ⊢
    simp [hvd, hhour, hr]
  · have hcontains : TennisCourtServer.strContains
        (ReservationManager.alreadyBookedMsg d r.hour)
        "already have a reservation" = true := by
      rw [TennisCourtServer.strContains]
      simp only [ReservationManager.alreadyBookedMsg, String.data_append,
        List.append_assoc]
      exact containsSub_append_left _ (by decide)
    rw [TennisCourtServer.reservation_fail_status, if_pos hcontains]

/-- Witness for C10: `user1` owns WED 14 and requests WED 14 again. -/
theorem c10_witness :
    ∃ h0, h0 ∈ HOURS ∧
      ScheduleStore.get_slot
        (ScheduleStore.setSlot ScheduleStore.freshStore "WED" 14 (some "user1"))
        "WED" h0 = some "user1" ∧
      ReservationManager.make_reservation
        (ScheduleStore.setSlot ScheduleStore.freshStore "WED" 14 (some "user1"))
        "user1" "WED" 14 =
        some (ScheduleStore.setSlot ScheduleStore.freshStore "WED" 14 (some "user1"),
          false, ReservationManager.alreadyBookedMsg "WED" h0) ∧
      TennisCourtServer.reservation_fail_status
        (ReservationManager.alreadyBookedMsg "WED" h0) = 403 :=
  c10_rereserve_own_slot _ (by decide) "user1" "WED" 14 (by decide)

/-- C4: when user `u` owns exactly one slot (at hour `h0`) on a valid
day `d`, the first `cancel_reservation(u, d)` succeeds and vacates
exactly that slot, leaving every other slot unchanged, and an
immediately repeated call fails with the no-reservation message and
leaves the grid unchanged. -/
theorem c4_cancel_twice (s : Sched) (hWF : WF s) (u d : String) (h0 : Int)
    (hd : d ∈ DAYS) (hown : ScheduleStore.get_slot s d h0 = some u)
    (huniq : ∀ h', ScheduleStore.get_slot s d h' = some u → h' = h0) :
    ReservationManager.cancel_reservation s u d =
      (ScheduleStore.setSlot s d h0 none, true,
        ReservationManager.cancelledMsg d h0) ∧
    ScheduleStore.get_slot (ScheduleStore.setSlot s d h0 none) d h0 = none ∧
    (∀ d' h', ¬ (d' = d ∧ h' = h0) →
      ScheduleStore.get_slot (ScheduleStore.setSlot s d h0 none) d' h' =
        ScheduleStore.get_slot s d' h') ∧
    ReservationManager.cancel_reservation
      (ScheduleStore.setSlot s d h0 none) u d =
      (ScheduleStore.setSlot s d h0 none, false,
        ReservationManager.noReservationMsg d) := by
  have hdm : h0 ∈ HOURS := hour_mem_of_get_slot_some hWF hown
  have hup : pyUpper d = d := pyUpper_of_mem_DAYS hd
  have hvd : is_valid_day (pyUpper d) = true := by
    rw [is_valid_day, pyUpper_idem, hup]
    simp [List.contains]
    exact hd
  obtain ⟨inner, hl, _⟩ := WF_lookup_day hWF hd
  have hown' : ScheduleStore.get_slot s (pyUpper d) h0 = some u := by
    rw [hup]; exact hown
  obtain ⟨r, hr⟩ := gurfd_isSome_of hdm hown'
  obtain ⟨hu, hdy, hrmem, hslot⟩ := gurfd_eq_some hr
  rw [hup] at hr hslot
  have hrh : r.hour = h0 := huniq _ hslot
  have hav : ScheduleStore.is_slot_available s d h0 = false := by
    simp [ScheduleStore.is_slot_available, hown]
  have hcan := cancel_slot_occupied hl hav
  have hfirst : ReservationManager.cancel_reservation s u d =
      (ScheduleStore.setSlot s d h0 none, true,
        ReservationManager.cancelledMsg d h0) := by
    rw [ReservationManager.cancel_reservation]
    rw [hup] at hvd ⊢
    simp [hvd, hr, hrh, hcan]
  have hgone : ScheduleStore.get_slot (ScheduleStore.setSlot s d h0 none) d h0 =
      none := get_slot_setSlot_same _ hl
  have hother : ∀ d' h', ¬ (d' = d ∧ h' = h0) →
      ScheduleStore.get_slot (ScheduleStore.setSlot s d h0 none) d' h' =
        ScheduleStore.get_slot s d' h' :=
    fun d' h' hne => get_slot_setSlot_ne _ _ _ _ hne
  refine ⟨hfirst, hgone, hother, ?_⟩
  have hnone : ScheduleStore.get_user_reservation_for_day
      (ScheduleStore.setSlot s d h0 none) u (pyUpper d) = none := by
    rw [hup, gurfd_eq_none_iff]
    intro h' hh' hc
    by_cases he : h' = h0
    · subst he
      rw [hgone] at hc
      cases hc
    · rw [hother d h' (fun hpair => he hpair.2)] at hc
      exact he (huniq _ hc)
  rw [ReservationManager.cancel_reservation]
  rw [hup] at hvd hnone ⊢
  simp [hvd, hnone]

/-- Witness for C4: `user1` owns exactly WED 14 and cancels WED twice. -/
theorem c4_witness :
    ReservationManager.cancel_reservation
      (ScheduleStore.setSlot ScheduleStore.freshStore "WED" 14 (some "user1"))
      "user1" "WED" =
      (ScheduleStore.setSlot
        (ScheduleStore.setSlot ScheduleStore.freshStore "WED" 14 (some "user1"))
        "WED" 14 none, true, ReservationManager.cancelledMsg "WED" 14) ∧
    ReservationManager.cancel_reservation
      (ScheduleStore.setSlot
        (ScheduleStore.setSlot ScheduleStore.freshStore "WED" 14 (some "user1"))
        "WED" 14 none) "user1" "WED" =
      (ScheduleStore.setSlot
        (ScheduleStore.setSlot ScheduleStore.freshStore "WED" 14 (some "user1"))
        "WED" 14 none, false, ReservationManager.noReservationMsg "WED") := by
  have h := c4_cancel_twice
    (ScheduleStore.setSlot ScheduleStore.freshStore "WED" 14 (some "user1"))
    (by decide) "user1" "WED" 14 (by decide) (by decide)
    (fun h' hc => by
      by_contra hne
      rw [get_slot_setSlot_ne _ _ _ _ (fun hp => hne hp.2), get_slot_fresh] at hc
      cases hc)
  exact ⟨h.1, h.2.2.2⟩

/-- C3: the claim fails on the source — `Server.py` spawns one thread
per connection and takes no lock, so the interleaving in which both
threads run every check (including `reserve_slot`'s vacancy re-check)
before either writes is legal; in it both callers observe the vacant
slot, both set ownership and both report success, instead of exactly
one success and a slot-taken failure.  Here both `user1` and `user2`
pass all checks against the empty grid, both write, and the final grid
records `user2` — silently losing `user1`'s "successful" reservation. -/
theorem c3_unsynchronized_race_both_succeed :
    Race.observeChecksPass ScheduleStore.freshStore "user1" "WED" 14 = true ∧
    Race.observeChecksPass ScheduleStore.freshStore "user2" "WED" 14 = true ∧
    (Race.interleaved ScheduleStore.freshStore "user1" "user2" "WED" 14).1 = true ∧
    (Race.interleaved ScheduleStore.freshStore "user1" "user2" "WED" 14).2.1 = true ∧
    ScheduleStore.get_slot
      (Race.interleaved ScheduleStore.freshStore "user1" "user2" "WED" 14).2.2
      "WED" 14 = some "user2" := by decide

/-- C6 counterexample: `authenticate` never checks the freshly drawn
token against the active sessions; on the (possible) draw that equals an
active token, the existing session is silently overwritten — so the
token is not *guaranteed* unique and collisions do overwrite sessions. -/
theorem c6_counterexample :
    (AuthenticationManager.authenticate [("tok", "user1")] "user2" "2" "tok").1 =
      some "tok" ∧
    (AuthenticationManager.authenticate [("tok", "user1")] "user2" "2" "tok").2 =
      [("tok", "user2")] ∧
    AuthenticationManager.validate_token
      (AuthenticationManager.authenticate [("tok", "user1")] "user2" "2" "tok").2
      "tok" = some "user2" := by decide

/-- C6 (amended): for every successful `authenticate` call *whose
freshly generated token does not already occur among the active
sessions* (the overwhelmingly likely uuid4 outcome, but not one the code
checks), the new session is recorded under the returned token and every
existing session is preserved. -/
theorem c6_amended_authenticate_fresh_token
    (sessions : List (String × String)) (username password token : String)
    (hcred : lookupA username PREDEFINED_USERS = some password)
    (hfresh : lookupA token sessions = none) :
    (AuthenticationManager.authenticate sessions username password token).1 =
      some token ∧
    AuthenticationManager.validate_token
      (AuthenticationManager.authenticate sessions username password token).2
      token = some username ∧
    ∀ t u0, AuthenticationManager.validate_token sessions t = some u0 →
      AuthenticationManager.validate_token
        (AuthenticationManager.authenticate sessions username password token).2
        t = some u0 := by
  rw [AuthenticationManager.authenticate, hcred]
  simp only [ne_eq, not_true_eq_false, if_false]
  refine ⟨by simp, ?_, ?_⟩
  · exact lookupA_setA_self _ _ _
  · intro t u0 ht
    have hne : t ≠ token := by
      intro he
      subst he
      rw [AuthenticationManager.validate_token] at ht
      rw [ht] at hfresh
      cases hfresh
    rw [AuthenticationManager.validate_token,
      lookupA_setA_ne _ _ (Ne.symm hne)]
    exact ht

/-- Witness for the amended C6: a fresh token "tokB" next to an active
session "tokA". -/
theorem c6_amended_witness :
    (AuthenticationManager.authenticate [("tokA", "user1")] "user2" "2" "tokB").1 =
      some "tokB" ∧
    AuthenticationManager.validate_token
      (AuthenticationManager.authenticate [("tokA", "user1")] "user2" "2" "tokB").2
      "tokB" = some "user2" ∧
    AuthenticationManager.validate_token
      (AuthenticationManager.authenticate [("tokA", "user1")] "user2" "2" "tokB").2
      "tokA" = some "user1" := by
  have h := c6_amended_authenticate_fresh_token [("tokA", "user1")]
    "user2" "2" "tokB" (by decide) (by decide)
  exact ⟨h.1, h.2.1, h.2.2 "tokA" "user1" (by decide)⟩

/-! ## Lemmas: the one-per-day count under mutation -/

theorem countOwned_eq_zero {s : Sched} {u d : String}
    (h : ∀ h' ∈ HOURS, ScheduleStore.get_slot s d h' ≠ some u) :
    countOwned s u d = 0 := by
  rw [countOwned, List.length_eq_zero, List.filter_eq_nil_iff]
  intro x hx
  simpa using h x hx

theorem OneSlotPerDay_fresh : OneSlotPerDay ScheduleStore.freshStore := by
  intro u d
  rw [countOwned_eq_zero (fun h' _ => by rw [get_slot_fresh]; simp)]
  omega

theorem OneSlotPerDay_setSlot_vacate {s : Sched} (hInv : OneSlotPerDay s)
    (d : String) (h0 : Int) :
    OneSlotPerDay (ScheduleStore.setSlot s d h0 none) := by
  intro u' d'
  refine le_trans (le_of_eq rfl) (le_trans (filter_length_mono_of_imp ?_) (hInv u' d'))
  intro x hx hp
  simp only [decide_eq_true_eq] at hp ⊢
  by_cases hc : d' = d ∧ x = h0
  · obtain ⟨rfl, rfl⟩ := hc
    rw [ScheduleStore.setSlot] at hp
    cases hl : lookupA d' s with
    | none => rw [hl] at hp; exact hp
    | some inner =>
      rw [hl] at hp
      have : ScheduleStore.get_slot (setA d' (setA x none inner) s) d' x = none := by
        have := get_slot_setSlot_same (s := s) (d := d') (h := x) none hl
        rw [ScheduleStore.setSlot, hl] at this
        exact this
      rw [this] at hp
      cases hp
  · rw [get_slot_setSlot_ne _ _ _ _ hc] at hp
    exact hp

theorem OneSlotPerDay_setSlot_reserve {s : Sched} (hWF : WF s)
    (hInv : OneSlotPerDay s) {u day : String} {hour : Int}
    (hd : day ∈ DAYS) (hh : hour ∈ HOURS)
    (hno : ∀ h' ∈ HOURS, ScheduleStore.get_slot s day h' ≠ some u) :
    OneSlotPerDay (ScheduleStore.setSlot s day hour (some u)) := by
  obtain ⟨inner, hl, _⟩ := WF_lookup_day hWF hd
  intro u' d'
  by_cases hday : d' = day
  · subst hday
    by_cases huser : u' = u
    · subst huser
      rw [countOwned]
      refine filter_length_le_one_of_unique hour (by decide) ?_
      intro x hx hp
      simp only [decide_eq_true_eq] at hp
      by_contra hne
      rw [get_slot_setSlot_ne _ _ _ _ (fun hpair => hne hpair.2)] at hp
      exact hno x hx hp
    · refine le_trans (filter_length_mono_of_imp ?_) (hInv u' d')
      intro x hx hp
      simp only [decide_eq_true_eq] at hp ⊢
      by_cases hxh : x = hour
      · subst hxh
        rw [get_slot_setSlot_same _ hl] at hp
        cases hp
        exact absurd rfl huser
      · rw [get_slot_setSlot_ne _ _ _ _ (fun hpair => hxh hpair.2)] at hp
        exact hp
  · rw [countOwned, List.filter_congr ?_]
    · exact hInv u' d'
    · intro x hx
      rw [get_slot_setSlot_ne _ _ _ _ (fun hpair => hday hpair.1)]

/-! ## Lemmas: which grids the manager operations can produce -/

theorem make_reservation_cases {s : Sched} {u d : String} {h : Int}
    {s2 : Sched} {ok : Bool} {msg : String} (hWF : WF s)
    (hm : ReservationManager.make_reservation s u d h = some (s2, ok, msg)) :
    s2 = s ∨ (pyUpper d ∈ DAYS ∧ h ∈ HOURS ∧
      (∀ h' ∈ HOURS, ScheduleStore.get_slot s (pyUpper d) h' ≠ some u) ∧
      s2 = ScheduleStore.setSlot s (pyUpper d) h (some u)) := by
  rw [ReservationManager.make_reservation] at hm
  by_cases hvd : is_valid_day (pyUpper d) = true
  · rw [if_neg (by simp [hvd])] at hm
    by_cases hvh : is_valid_hour h = true
    · rw [if_neg (by simp [hvh])] at hm
      cases hg : ScheduleStore.get_user_reservation_for_day s u (pyUpper d) with
      | some r =>
        rw [hg] at hm
        cases hm
        exact Or.inl rfl
      | none =>
        rw [hg] at hm
        by_cases hav : ScheduleStore.is_slot_available s (pyUpper d) h = true
        · rw [if_neg (by simp [hav])] at hm
          have hd' : pyUpper d ∈ DAYS := (is_valid_day_iff_mem d).mp hvd
          have hh' : h ∈ HOURS := by
            rw [mem_HOURS_iff]
            exact is_valid_hour_iff.mp hvh
          obtain ⟨inner, hl, _⟩ := WF_lookup_day hWF hd'
          rw [reserve_slot_success u hl hav] at hm
          cases hm
          exact Or.inr ⟨hd', hh', fun h' _ => gurfd_eq_none_iff.mp hg h'
            (by assumption), rfl⟩
        · rw [if_pos (by simpa using hav)] at hm
          cases hm
          exact Or.inl rfl
    · rw [if_pos (by simp [hvh])] at hm
      cases hm
      exact Or.inl rfl
  · rw [if_pos (by simp [hvd])] at hm
    cases hm
    exact Or.inl rfl

theorem cancel_reservation_fst (s : Sched) (u d : String) :
    (ReservationManager.cancel_reservation s u d).1 = s ∨
    ∃ h0, (ReservationManager.cancel_reservation s u d).1 =
      ScheduleStore.setSlot s (pyUpper d) h0 none := by
  rw [ReservationManager.cancel_reservation]
  split
  · exact Or.inl rfl
  · split
    · exact Or.inl rfl
    · rename_i r hg
      split
      · rename_i s2 heq
        rw [ScheduleStore.cancel_reservation] at heq
        split at heq
        · cases heq
        · split at heq
          · cases heq
          · rename_i inner hl
            cases heq
            refine Or.inr ⟨r.hour, ?_⟩
            rw [ScheduleStore.setSlot, hl]
      · rename_i s2 heq
        rw [ScheduleStore.cancel_reservation] at heq
        split at heq
        · cases heq
          exact Or.inl rfl
        · split at heq
          · cases heq
            exact Or.inl rfl
          · cases heq

/-! ## Lemmas: snapshot save/load -/

theorem keys_loadHour (innerF : List (String × Option String)) (d : String)
    (acc : Sched) (h : Int) :
    (ScheduleStore.loadHour innerF d acc h).map Prod.fst = acc.map Prod.fst := by
  rw [ScheduleStore.loadHour]
  cases lookupA (toString h) innerF with
  | none => rfl
  | some v => exact keys_setSlot acc d h v

theorem keys_foldl_loadHour (innerF : List (String × Option String)) (d : String)
    (hs : List Int) (acc : Sched) :
    (hs.foldl (ScheduleStore.loadHour innerF d) acc).map Prod.fst =
      acc.map Prod.fst := by
  induction hs generalizing acc with
  | nil => rfl
  | cons x t ih => rw [List.foldl_cons, ih, keys_loadHour]

theorem get_slot_loadHour_ne (innerF : List (String × Option String))
    (d : String) (acc : Sched) (h : Int) {d' : String} {h' : Int}
    (hne : ¬ (d' = d ∧ h' = h)) :
    ScheduleStore.get_slot (ScheduleStore.loadHour innerF d acc h) d' h' =
      ScheduleStore.get_slot acc d' h' := by
  rw [ScheduleStore.loadHour]
  cases lookupA (toString h) innerF with
  | none => rfl
  | some v => exact get_slot_setSlot_ne _ _ _ _ hne

theorem get_slot_foldl_loadHour_ne (innerF : List (String × Option String))
    (d : String) (hs : List Int) (acc : Sched) {d' : String} {h' : Int}
    (hne : d' ≠ d ∨ h' ∉ hs) :
    ScheduleStore.get_slot (hs.foldl (ScheduleStore.loadHour innerF d) acc) d' h' =
      ScheduleStore.get_slot acc d' h' := by
  induction hs generalizing acc with
  | nil => rfl
  | cons x t ih =>
    rw [List.foldl_cons]
    have hstep : ¬ (d' = d ∧ h' = x) := by
      rcases hne with h | h
      · exact fun hp => h hp.1
      · exact fun hp => h (hp.2 ▸ List.mem_cons_self _ _)
    have htail : d' ≠ d ∨ h' ∉ t := by
      rcases hne with h | h
      · exact Or.inl h
      · exact Or.inr (fun hm => h (List.mem_cons_of_mem _ hm))
    rw [ih _ htail, get_slot_loadHour_ne _ _ _ _ hstep]

theorem get_slot_foldl_loadHour_mem (innerF : List (String × Option String))
    (d : String) (hs : List Int) (acc : Sched) {h : Int} {v : Option String}
    (hmem : h ∈ hs) (hlf : lookupA (toString h) innerF = some v)
    (hday : (lookupA d acc).isSome) :
    ScheduleStore.get_slot (hs.foldl (ScheduleStore.loadHour innerF d) acc) d h =
      v := by
  induction hs generalizing acc with
  | nil => simp at hmem
  | cons x t ih =>
    rw [List.foldl_cons]
    by_cases hx : h ∈ t
    · refine ih _ hx ?_
      have : (ScheduleStore.loadHour innerF d acc x).map Prod.fst =
          acc.map Prod.fst := keys_loadHour _ _ _ _
      cases hl : lookupA d acc with
      | none => rw [hl] at hday; cases hday
      | some inner =>
        apply lookupA_isSome_of_mem
        rw [this]
        by_contra hnm
        rw [← lookupA_eq_none_iff] at hnm
        rw [hnm] at hl
        cases hl
    · have hxh : x = h := by
        rcases List.mem_cons.mp hmem with h1 | h1
        · exact h1.symm
        · exact absurd h1 hx
      subst hxh
      rw [get_slot_foldl_loadHour_ne _ _ _ _ (Or.inr hx)]
      rw [ScheduleStore.loadHour, hlf]
      cases hl : lookupA d acc with
      | none => rw [hl] at hday; cases hday
      | some inner => exact get_slot_setSlot_same _ hl

theorem keys_loadDay (f : List (String × List (String × Option String)))
    (acc : Sched) (d : String) :
    (ScheduleStore.loadDay f acc d).map Prod.fst = acc.map Prod.fst := by
  rw [ScheduleStore.loadDay]
  cases lookupA d f with
  | none => rfl
  | some innerF => exact keys_foldl_loadHour _ _ _ _

theorem get_slot_loadDay_ne (f : List (String × List (String × Option String)))
    (acc : Sched) (e : String) {d : String} {h : Int}
    (hne : d ≠ e ∨ h ∉ HOURS) :
    ScheduleStore.get_slot (ScheduleStore.loadDay f acc e) d h =
      ScheduleStore.get_slot acc d h := by
  rw [ScheduleStore.loadDay]
  cases lookupA e f with
  | none => rfl
  | some innerF => exact get_slot_foldl_loadHour_ne _ _ _ _ hne

theorem get_slot_foldl_loadDay_ne (f : List (String × List (String × Option String)))
    (ds : List String) (acc : Sched) {d : String} {h : Int}
    (hne : d ∉ ds ∨ h ∉ HOURS) :
    ScheduleStore.get_slot (ds.foldl (ScheduleStore.loadDay f) acc) d h =
      ScheduleStore.get_slot acc d h := by
  induction ds generalizing acc with
  | nil => rfl
  | cons e t ih =>
    rw [List.foldl_cons]
    have hstep : d ≠ e ∨ h ∉ HOURS := by
      rcases hne with h1 | h1
      · exact Or.inl (fun he => h1 (he ▸ List.mem_cons_self _ _))
      · exact Or.inr h1
    have htail : d ∉ t ∨ h ∉ HOURS := by
      rcases hne with h1 | h1
      · exact Or.inl (fun hm => h1 (List.mem_cons_of_mem _ hm))
      · exact Or.inr h1
    rw [ih _ htail, get_slot_loadDay_ne _ _ _ hstep]

theorem keys_foldl_loadDay (f : List (String × List (String × Option String)))
    (ds : List String) (acc : Sched) :
    (ds.foldl (ScheduleStore.loadDay f) acc).map Prod.fst = acc.map Prod.fst := by
  induction ds generalizing acc with
  | nil => rfl
  | cons e t ih => rw [List.foldl_cons, ih, keys_loadDay]

theorem get_slot_foldl_loadDay_mem
    (f : List (String × List (String × Option String))) (ds : List String)
    (acc : Sched) {d : String} {h : Int}
    {innerF : List (String × Option String)} {v : Option String}
    (hmem : d ∈ ds) (hh : h ∈ HOURS) (hf : lookupA d f = some innerF)
    (hlf : lookupA (toString h) innerF = some v)
    (hday : (lookupA d acc).isSome) :
    ScheduleStore.get_slot (ds.foldl (ScheduleStore.loadDay f) acc) d h = v := by
  induction ds generalizing acc with
  | nil => simp at hmem
  | cons e t ih =>
    rw [List.foldl_cons]
    by_cases hx : d ∈ t
    · refine ih _ hx ?_
      cases hl : lookupA d acc with
      | none => rw [hl] at hday; cases hday
      | some inner =>
        apply lookupA_isSome_of_mem
        rw [keys_loadDay]
        by_contra hnm
        rw [← lookupA_eq_none_iff] at hnm
        rw [hnm] at hl
        cases hl
    · have hde : e = d := by
        rcases List.mem_cons.mp hmem with h1 | h1
        · exact h1.symm
        · exact absurd h1 hx
      subst hde
      rw [get_slot_foldl_loadDay_ne _ _ _ (Or.inl hx), ScheduleStore.loadDay, hf]
      exact get_slot_foldl_loadHour_mem _ _ _ _ hh hlf hday

theorem lookupA_save (s : Sched) (d : String) :
    lookupA d (ScheduleStore._save_to_file s) =
      (lookupA d s).map (fun inner => inner.map fun q => (toString q.1, q.2)) := by
  induction s with
  | nil => rfl
  | cons p rest ih =>
    by_cases hp : p.1 = d
    · simp [ScheduleStore._save_to_file, lookupA, hp]
    · simp only [ScheduleStore._save_to_file, List.map_cons, lookupA, hp,
        if_false] at ih ⊢
      exact ih

theorem lookupA_stringify {inner : DaySched} {h : Int}
    (hinj : ∀ k ∈ inner.map Prod.fst, toString k = toString h → k = h) :
    lookupA (toString h) (inner.map fun q => (toString q.1, q.2)) =
      lookupA h inner := by
  induction inner with
  | nil => rfl
  | cons q rest ih =>
    by_cases hq : q.1 = h
    · subst hq
      simp [lookupA]
    · have hqs : ¬ (toString q.1 = toString h) := fun he =>
        hq (hinj q.1 (by simp) he)
      simp only [List.map_cons, lookupA, hqs, if_false, hq]
      exact ih (fun k hk he => hinj k (List.mem_cons_of_mem _ hk) he)

theorem toString_inj_on_HOURS :
    ∀ k ∈ HOURS, ∀ h ∈ HOURS, toString k = toString h → k = h := by decide

/-- Round trip: loading the snapshot written from a well-formed grid
into a fresh store reproduces the owner of every coordinate. -/
theorem roundtrip_get_slot {s : Sched} (hWF : WF s) (d : String) (h : Int) :
    ScheduleStore.get_slot
      (ScheduleStore._load_from_file ScheduleStore.freshStore
        (ScheduleStore._save_to_file s)) d h =
      ScheduleStore.get_slot s d h := by
  by_cases hd : d ∈ DAYS
  · by_cases hh : h ∈ HOURS
    · obtain ⟨inner, hl, hkeys⟩ := WF_lookup_day hWF hd
      have hf : lookupA d (ScheduleStore._save_to_file s) =
          some (inner.map fun q => (toString q.1, q.2)) := by
        rw [lookupA_save, hl]
        rfl
      have hinj : ∀ k ∈ inner.map Prod.fst, toString k = toString h → k = h := by
        rw [hkeys]
        intro k hk
        exact toString_inj_on_HOURS k hk h hh
      have hstr := lookupA_stringify hinj
      cases hv : lookupA h inner with
      | none =>
        rw [lookupA_eq_none_iff, hkeys] at hv
        exact absurd hh hv
      | some w =>
        rw [hv] at hstr
        have hday : (lookupA d ScheduleStore.freshStore).isSome :=
          lookupA_isSome_of_mem (by rw [WF_fresh.1]; exact hd)
        rw [ScheduleStore._load_from_file,
          get_slot_foldl_loadDay_mem _ _ _ hd hh hf hstr hday,
          ScheduleStore.get_slot, hl, Option.getD_some, hv]
        rfl
    · rw [ScheduleStore._load_from_file,
        get_slot_foldl_loadDay_ne _ _ _ (Or.inr hh), get_slot_fresh,
        get_slot_none_of_hour hWF hh]
  · rw [ScheduleStore._load_from_file,
      get_slot_foldl_loadDay_ne _ _ _ (Or.inl hd), get_slot_fresh,
      get_slot_none_of_day hWF hd]

theorem foldl_loadDay_congr
    {f1 f2 : List (String × List (String × Option String))}
    (ds : List String) (acc : Sched)
    (hagree : ∀ e ∈ ds, lookupA e f1 = lookupA e f2) :
    ds.foldl (ScheduleStore.loadDay f1) acc =
      ds.foldl (ScheduleStore.loadDay f2) acc := by
  induction ds generalizing acc with
  | nil => rfl
  | cons e t ih =>
    rw [List.foldl_cons, List.foldl_cons]
    have hstep : ScheduleStore.loadDay f1 acc e = ScheduleStore.loadDay f2 acc e := by
      rw [ScheduleStore.loadDay, ScheduleStore.loadDay,
        hagree e (List.mem_cons_self _ _)]
    rw [hstep]
    exact ih _ (fun x hx => hagree x (List.mem_cons_of_mem _ hx))

theorem load_ignores_unknown_day (s : Sched)
    (f : List (String × List (String × Option String)))
    (k : String) (innerX : List (String × Option String)) (hk : k ∉ DAYS) :
    ScheduleStore._load_from_file s ((k, innerX) :: f) =
      ScheduleStore._load_from_file s f := by
  rw [ScheduleStore._load_from_file, ScheduleStore._load_from_file]
  refine foldl_loadDay_congr _ _ ?_
  intro e he
  have hne : k ≠ e := fun heq => hk (heq ▸ he)
  rw [lookupA, if_neg hne]

/-- C1: the one-reservation-per-day invariant — every user owns at most
one slot per day — holds of the initial grid and is preserved by
`make_reservation`, `cancel_reservation`, `reset_schedule`, and by
loading a snapshot that was saved from an invariant-satisfying grid. -/
theorem c1_one_slot_per_day_invariant :
    OneSlotPerDay ScheduleStore.freshStore ∧
    (∀ s u d h s2 ok msg, WF s → OneSlotPerDay s →
      ReservationManager.make_reservation s u d h = some (s2, ok, msg) →
      OneSlotPerDay s2) ∧
    (∀ s u d, OneSlotPerDay s →
      OneSlotPerDay (ReservationManager.cancel_reservation s u d).1) ∧
    (∀ s, WF s → OneSlotPerDay (ScheduleStore.reset_schedule s)) ∧
    (∀ s, WF s → OneSlotPerDay s →
      OneSlotPerDay (ScheduleStore._load_from_file ScheduleStore.freshStore
        (ScheduleStore._save_to_file s))) := by
  refine ⟨OneSlotPerDay_fresh, ?_, ?_, ?_, ?_⟩
  · intro s u d h s2 ok msg hWF hInv hm
    rcases make_reservation_cases hWF hm with rfl | ⟨hd, hh, hno, rfl⟩
    · exact hInv
    · exact OneSlotPerDay_setSlot_reserve hWF hInv hd hh hno
  · intro s u d hInv
    rcases cancel_reservation_fst s u d with he | ⟨h0, he⟩
    · rw [he]; exact hInv
    · rw [he]; exact OneSlotPerDay_setSlot_vacate hInv _ _
  · intro s hWF
    rw [ScheduleStore.reset_schedule, initialize_of_keys hWF.1]
    exact OneSlotPerDay_fresh
  · intro s hWF hInv u d
    have hc : countOwned (ScheduleStore._load_from_file ScheduleStore.freshStore
        (ScheduleStore._save_to_file s)) u d = countOwned s u d := by
      unfold countOwned
      congr 1
      refine List.filter_congr ?_
      intro x hx
      rw [roundtrip_get_slot hWF]
    rw [hc]
    exact hInv u d

/-- Witness for C1: the grid produced by booking WED 14 for `user1` on
the fresh grid satisfies the invariant (obtained from the preservation
theorem applied at that concrete call). -/
theorem c1_witness :
    OneSlotPerDay (ScheduleStore.setSlot ScheduleStore.freshStore "WED" 14
      (some "user1")) :=
  c1_one_slot_per_day_invariant.2.1 ScheduleStore.freshStore "user1" "wed" 14
    (ScheduleStore.setSlot ScheduleStore.freshStore "WED" 14 (some "user1"))
    true (ReservationManager.reservedMsg "WED" 14) (by decide)
    c1_one_slot_per_day_invariant.1 (by decide)

/-- C5: a missing snapshot file leaves the grid all-vacant; unknown day
keys in a loaded file are ignored; and saving any well-formed grid and
loading the snapshot into a freshly initialized store reproduces the
identical grid — the same owner-or-none at every (day, hour)
coordinate. -/
theorem c5_snapshot_roundtrip :
    ScheduleStore.initWithFile none = ScheduleStore.freshStore ∧
    (∀ f k innerX, k ∉ DAYS →
      ScheduleStore._load_from_file ScheduleStore.freshStore ((k, innerX) :: f) =
        ScheduleStore._load_from_file ScheduleStore.freshStore f) ∧
    (∀ s, WF s → ∀ d h,
      ScheduleStore.get_slot
        (ScheduleStore.initWithFile (some (ScheduleStore._save_to_file s))) d h =
        ScheduleStore.get_slot s d h) := by
  refine ⟨rfl, ?_, ?_⟩
  · intro f k innerX hk
    exact load_ignores_unknown_day _ f k innerX hk
  · intro s hWF d h
    exact roundtrip_get_slot hWF d h

/-- Witness for C5: the grid holding WED 14 = `user1` survives a
save/load round trip at that coordinate. -/
theorem c5_witness :
    ScheduleStore.get_slot
      (ScheduleStore.initWithFile (some (ScheduleStore._save_to_file
        (ScheduleStore.setSlot ScheduleStore.freshStore "WED" 14 (some "user1")))))
      "WED" 14 = some "user1" := by
  rw [c5_snapshot_roundtrip.2.2
    (ScheduleStore.setSlot ScheduleStore.freshStore "WED" 14 (some "user1"))
    (by decide) "WED" 14]
  decide

/-! ## Lemmas: adjacent character pairs (to refute substring claims) -/

theorem hasPair_cons_skip {a b : Char} {l : List Char} (c : Char)
    (h : hasPair a b l = true) : hasPair a b (c :: l) = true := by
  cases l with
  | nil => simp [hasPair] at h
  | cons y t =>
    rw [hasPair, Bool.or_eq_true]
    exact Or.inr h

theorem hasPair_of_isPrefixOf {a b : Char} {p l : List Char}
    (hpre : p.isPrefixOf l = true) (hp : hasPair a b p = true) :
    hasPair a b l = true := by
  induction p generalizing l with
  | nil => simp [hasPair] at hp
  | cons x p' ih =>
    cases p' with
    | nil => simp [hasPair] at hp
    | cons y t =>
      cases l with
      | nil => simp [List.isPrefixOf] at hpre
      | cons c l' =>
        simp only [List.isPrefixOf, Bool.and_eq_true, beq_iff_eq] at hpre
        obtain ⟨rfl, hpre'⟩ := hpre
        rw [hasPair, Bool.or_eq_true] at hp
        cases l' with
        | nil => simp [List.isPrefixOf] at hpre'
        | cons c2 l'' =>
          have hc2 : y = c2 := by
            simp only [List.isPrefixOf, Bool.and_eq_true, beq_iff_eq] at hpre'
            exact hpre'.1
          rw [hasPair, Bool.or_eq_true]
          rcases hp with hp | hp
          · exact Or.inl (by rw [← hc2]; exact hp)
          · exact Or.inr (ih hpre' (hc2 ▸ hp))

theorem hasPair_of_containsSub {a b : Char} {p l : List Char}
    (hsub : TennisCourtServer.containsSub p l = true)
    (hp : hasPair a b p = true) : hasPair a b l = true := by
  induction l with
  | nil =>
    rw [TennisCourtServer.containsSub] at hsub
    cases p with
    | nil => simp [hasPair] at hp
    | cons x t => simp at hsub
  | cons c t ih =>
    rw [TennisCourtServer.containsSub, Bool.or_eq_true] at hsub
    rcases hsub with hsub | hsub
    · exact hasPair_of_isPrefixOf hsub hp
    · exact hasPair_cons_skip c (ih hsub)

theorem strContains_eq_false_of_pair {m probe : String} {a b : Char}
    (hp : hasPair a b probe.data = true)
    (hm : hasPair a b m.data = false) :
    TennisCourtServer.strContains m probe = false := by
  rw [TennisCourtServer.strContains]
  by_contra hc
  rw [Bool.not_eq_false] at hc
  rw [hasPair_of_containsSub hc hp] at hm
  cases hm

theorem fst_mem_of_hasPair {a b : Char} {l : List Char}
    (h : hasPair a b l = true) : a ∈ l := by
  induction l with
  | nil => simp [hasPair] at h
  | cons c t ih =>
    cases t with
    | nil => simp [hasPair] at h
    | cons y t' =>
      rw [hasPair, Bool.or_eq_true] at h
      rcases h with h | h
      · simp only [Bool.and_eq_true, decide_eq_true_eq] at h
        rw [h.1]
        exact List.mem_cons_self _ _
      · exact List.mem_cons_of_mem _ (ih h)

theorem snd_mem_of_hasPair {a b : Char} {l : List Char}
    (h : hasPair a b l = true) : b ∈ l := by
  induction l with
  | nil => simp [hasPair] at h
  | cons c t ih =>
    cases t with
    | nil => simp [hasPair] at h
    | cons y t' =>
      rw [hasPair, Bool.or_eq_true] at h
      rcases h with h | h
      · simp only [Bool.and_eq_true, decide_eq_true_eq] at h
        rw [h.2]
        exact List.mem_cons_of_mem _ (List.mem_cons_self _ _)
      · exact List.mem_cons_of_mem _ (ih h)

theorem hasPair_eq_false_of_fst {a b : Char} {l : List Char} (h : a ∉ l) :
    hasPair a b l = false :=
  Bool.eq_false_iff.mpr (fun hc => h (fst_mem_of_hasPair hc))

theorem hasPair_eq_false_of_snd {a b : Char} {l : List Char} (h : b ∉ l) :
    hasPair a b l = false :=
  Bool.eq_false_iff.mpr (fun hc => h (snd_mem_of_hasPair hc))

theorem hasPair_append_false {a b : Char} {l1 l2 : List Char}
    (h1 : hasPair a b l1 = false) (h2 : hasPair a b l2 = false)
    (hbd : ¬ (l1.getLast? = some a ∧ l2.head? = some b)) :
    hasPair a b (l1 ++ l2) = false := by
  induction l1 with
  | nil => simpa using h2
  | cons x xs ih =>
    cases xs with
    | nil =>
      rw [List.cons_append, List.nil_append]
      cases l2 with
      | nil => simp [hasPair]
      | cons y t2 =>
        rw [hasPair]
        have hxy : ¬ (x = a ∧ y = b) := by
          intro he
          exact hbd ⟨by simp [he.1], by simp [he.2]⟩
        simp only [Bool.or_eq_false_iff]
        constructor
        · simp only [Bool.and_eq_false_iff, decide_eq_false_iff_not]
          by_cases hx : x = a
          · exact Or.inr (fun hy => hxy ⟨hx, hy⟩)
          · exact Or.inl hx
        · exact h2
    | cons x2 t =>
      rw [List.cons_append, List.cons_append, hasPair]
      have h1' : hasPair a b (x2 :: t) = false := by
        rw [hasPair, Bool.or_eq_false_iff] at h1
        exact h1.2
      have hhead : (decide (x = a) && decide (x2 = b)) = false := by
        rw [hasPair, Bool.or_eq_false_iff] at h1
        exact h1.1
      have hbd' : ¬ ((x2 :: t).getLast? = some a ∧ l2.head? = some b) := by
        intro he
        exact hbd ⟨by rw [List.getLast?_cons_cons]; exact he.1, he.2⟩
      simp only [Bool.or_eq_false_iff]
      refine ⟨hhead, ?_⟩
      have := ih h1' hbd'
      simpa using this

/-! ## Lemmas: the characters of a printed integer -/

theorem digitChar_mem {n : Nat} (h : n < 10) :
    Nat.digitChar n ∈ ['0', '1', '2', '3', '4', '5', '6', '7', '8', '9'] := by
  interval_cases n <;> decide

theorem toDigitsCore_mem (fuel : Nat) :
    ∀ (n : Nat) (ds : List Char),
      (∀ c ∈ ds, c ∈ ['0', '1', '2', '3', '4', '5', '6', '7', '8', '9']) →
      ∀ c ∈ Nat.toDigitsCore 10 fuel n ds,
        c ∈ ['0', '1', '2', '3', '4', '5', '6', '7', '8', '9'] := by
  induction fuel with
  | zero => intro n ds hds c hc; exact hds c hc
  | succ f ih =>
    intro n ds hds c hc
    rw [Nat.toDigitsCore] at hc
    have hd : Nat.digitChar (n % 10) ∈
        ['0', '1', '2', '3', '4', '5', '6', '7', '8', '9'] :=
      digitChar_mem (Nat.mod_lt _ (by omega))
    by_cases h0 : n / 10 = 0
    · rw [if_pos h0] at hc
      rcases List.mem_cons.mp hc with h | h
      · rw [h]; exact hd
      · exact hds c h
    · rw [if_neg h0] at hc
      refine ih _ _ ?_ c hc
      intro c' hc'
      rcases List.mem_cons.mp hc' with h | h
      · rw [h]; exact hd
      · exact hds c' h

theorem nat_repr_chars (n : Nat) :
    ∀ c ∈ (Nat.repr n).data, c ∈ ['0', '1', '2', '3', '4', '5', '6', '7', '8', '9'] := by
  intro c hc
  rw [Nat.repr, Nat.toDigits] at hc
  exact toDigitsCore_mem _ _ _ (by simp) c hc

theorem int_toString_chars (n : Int) :
    ∀ c ∈ (toString n).data,
      c ∈ ['0', '1', '2', '3', '4', '5', '6', '7', '8', '9', '-'] := by
  intro c hc
  cases n with
  | ofNat m =>
    have hc' : c ∈ (Nat.repr m).data := hc
    have := nat_repr_chars m c hc'
    simp only [List.mem_cons, List.not_mem_nil, or_false] at this ⊢
    tauto
  | negSucc m =>
    have hc' : c ∈ ('-' :: (Nat.repr (m + 1)).data : List Char) := hc
    rcases List.mem_cons.mp hc' with h | h
    · rw [h]; decide
    · have := nat_repr_chars (m + 1) c h
      simp only [List.mem_cons, List.not_mem_nil, or_false] at this ⊢
      tauto

/-! ## Lemmas: which failure messages contain which probes -/

theorem not_mem_toString_int (n : Int) {c : Char}
    (hc : c ∉ (['0', '1', '2', '3', '4', '5', '6', '7', '8', '9', '-'] : List Char)) :
    c ∉ (toString n).data :=
  fun h => hc (int_toString_chars n c h)

theorem lower_not_mem_pyUpper (x : String) {c : Char}
    (hc : 97 ≤ c.toNat ∧ c.toNat ≤ 122) : c ∉ (pyUpper x).data :=
  fun h => pyUpper_no_lower h hc

theorem invalidDayMsg_no_pair (d0 : String) :
    hasPair 'l' 'r' (ReservationManager.invalidDayMsg (pyUpper d0)).data = false := by
  rw [ReservationManager.invalidDayMsg]
  simp only [String.data_append]
  refine hasPair_append_false (hasPair_append_false (by decide) ?_ ?_) (by decide) ?_
  · exact hasPair_eq_false_of_fst (lower_not_mem_pyUpper d0 (by decide))
  · rintro ⟨ha, -⟩
    rw [show ("Invalid day: ".data.getLast? = some ' ') from by decide] at ha
    exact absurd ha (by decide)
  · rintro ⟨-, hb⟩
    exact absurd hb (by decide)

theorem invalidHourMsg_no_pair (hour : Int) :
    hasPair 'l' 'r' (ReservationManager.invalidHourMsg hour).data = false := by
  rw [ReservationManager.invalidHourMsg]
  simp only [String.data_append]
  refine hasPair_append_false (hasPair_append_false (by decide) ?_ ?_) (by decide) ?_
  · exact hasPair_eq_false_of_fst (not_mem_toString_int hour (by decide))
  · rintro ⟨ha, -⟩
    rw [show ("Invalid hour: ".data.getLast? = some ' ') from by decide] at ha
    exact absurd ha (by decide)
  · rintro ⟨-, hb⟩
    exact absurd hb (by decide)

theorem noReservationMsg_no_pair (d0 : String) :
    hasPair 'I' 'n' (ReservationManager.noReservationMsg (pyUpper d0)).data = false := by
  rw [ReservationManager.noReservationMsg]
  simp only [String.data_append]
  refine hasPair_append_false (hasPair_append_false (by decide) ?_ ?_) (by decide) ?_
  · exact hasPair_eq_false_of_snd (lower_not_mem_pyUpper d0 (by decide))
  · rintro ⟨ha, -⟩
    rw [show ("You have no reservation on ".data.getLast? = some ' ') from by decide]
      at ha
    exact absurd ha (by decide)
  · rintro ⟨-, hb⟩
    exact absurd hb (by decide)

theorem slotTakenMsg_no_probe1 (d0 : String) (hour : Int) (w : String)
    (hw : ('h' : Char) ∉ w.data) :
    TennisCourtServer.strContains
      (ReservationManager.slotTakenMsg (pyUpper d0) hour (some w))
      "already have a reservation" = false := by
  refine strContains_eq_false_of_pair (a := 'h') (b := 'a') (by decide) ?_
  refine hasPair_eq_false_of_fst ?_
  rw [ReservationManager.slotTakenMsg]
  simp only [Option.getD_some, String.data_append, List.mem_append, List.append_assoc]
  push_neg
  refine ⟨by decide, lower_not_mem_pyUpper d0 (by decide), by decide,
    not_mem_toString_int hour (by decide), by decide,
    not_mem_toString_int (hour + 1) (by decide), by decide, hw, by decide⟩

theorem slotTakenMsg_contains_probe2 (day : String) (hour : Int) (w : String) :
    TennisCourtServer.strContains
      (ReservationManager.slotTakenMsg day hour (some w)) "already reserved" = true := by
  rw [TennisCourtServer.strContains, ReservationManager.slotTakenMsg]
  simp only [Option.getD_some, String.data_append, List.append_assoc]
  exact containsSub_append_of _ (containsSub_append_of _ (containsSub_append_of _
    (containsSub_append_of _ (containsSub_append_of _ (containsSub_append_of _
      (containsSub_append_left _ (by decide)))))))

theorem alreadyBookedMsg_contains_probe1 (day : String) (h0 : Int) :
    TennisCourtServer.strContains (ReservationManager.alreadyBookedMsg day h0)
      "already have a reservation" = true := by
  rw [TennisCourtServer.strContains, ReservationManager.alreadyBookedMsg]
  simp only [String.data_append, List.append_assoc]
  exact containsSub_append_left _ (by decide)

theorem status_400_of_no_pair_lr {m : String}
    (hm : hasPair 'l' 'r' m.data = false) :
    TennisCourtServer.reservation_fail_status m = 400 := by
  have h1 : TennisCourtServer.strContains m "already have a reservation" = false :=
    strContains_eq_false_of_pair (by decide) hm
  have h2 : TennisCourtServer.strContains m "already reserved" = false :=
    strContains_eq_false_of_pair (by decide) hm
  rw [TennisCourtServer.reservation_fail_status, if_neg (by simp [h1]),
    if_neg (by simp [h2])]

theorem invalidDay_contains_probe (day : String) :
    TennisCourtServer.strContains ("Invalid day: " ++ day) "Invalid day" = true := by
  rw [TennisCourtServer.strContains]
  have : ("Invalid day: " ++ day).data =
      "Invalid day".data ++ (": ".data ++ day.data) := by
    rw [show ("Invalid day: " : String) = "Invalid day" ++ ": " from by decide]
    simp [String.data_append]
  rw [this]
  exact containsSub_of_here (isPrefixOf_append_self _ _)

theorem noReservationMsg_no_invalid_day (d0 : String) :
    TennisCourtServer.strContains (ReservationManager.noReservationMsg (pyUpper d0))
      "Invalid day" = false :=
  strContains_eq_false_of_pair (by decide) (noReservationMsg_no_pair d0)

/-- C7: the reservation endpoints map business-rule failures to status
codes: POST /reservations answers 400 for a missing or unparseable body,
a missing or non-integer `hour` field, an invalid day or an hour outside
[9, 22]; 403 when the caller already owns a slot on the requested day;
409 when the requested slot is owned by someone else (any of the
predefined users); DELETE /reservations answers 400 for a missing or
invalid day value and 404 when the caller has no reservation on the
given valid day. -/
theorem c7_reservation_status_mapping :
    (∀ s u, TennisCourtServer.handle_make_reservation s u none =
      some (s, 400, "Missing 'day' or 'hour' in request body")) ∧
    (∀ s u b, lookupA "day" b = none ∨ lookupA "hour" b = none →
      TennisCourtServer.handle_make_reservation s u (some b) =
        some (s, 400, "Missing 'day' or 'hour' in request body")) ∧
    (∀ s u b dv hv, lookupA "day" b = some dv → lookupA "hour" b = some hv →
      jvalInt hv = none →
      TennisCourtServer.handle_make_reservation s u (some b) =
        some (s, 400, "Invalid hour format. Must be an integer (9-22)")) ∧
    (∀ s u b dv hv hour, lookupA "day" b = some dv → lookupA "hour" b = some hv →
      jvalInt hv = some hour → pyUpper (jvalStr dv) ∉ DAYS →
      TennisCourtServer.handle_make_reservation s u (some b) =
        some (s, 400, ReservationManager.invalidDayMsg (pyUpper (jvalStr dv)))) ∧
    (∀ s u b dv hv hour, lookupA "day" b = some dv → lookupA "hour" b = some hv →
      jvalInt hv = some hour → pyUpper (jvalStr dv) ∈ DAYS →
      ¬ (9 ≤ hour ∧ hour ≤ 22) →
      TennisCourtServer.handle_make_reservation s u (some b) =
        some (s, 400, ReservationManager.invalidHourMsg hour)) ∧
    (∀ s u b dv hv hour, WF s → lookupA "day" b = some dv →
      lookupA "hour" b = some hv → jvalInt hv = some hour →
      pyUpper (jvalStr dv) ∈ DAYS → 9 ≤ hour ∧ hour ≤ 22 →
      (∃ h0, ScheduleStore.get_slot s (pyUpper (jvalStr dv)) h0 = some u) →
      ∃ h0, TennisCourtServer.handle_make_reservation s u (some b) =
        some (s, 403,
          ReservationManager.alreadyBookedMsg (pyUpper (jvalStr dv)) h0)) ∧
    (∀ s u b dv hv hour w, lookupA "day" b = some dv →
      lookupA "hour" b = some hv → jvalInt hv = some hour →
      pyUpper (jvalStr dv) ∈ DAYS → 9 ≤ hour ∧ hour ≤ 22 →
      (∀ h0, ScheduleStore.get_slot s (pyUpper (jvalStr dv)) h0 ≠ some u) →
      ScheduleStore.get_slot s (pyUpper (jvalStr dv)) hour = some w →
      w ∈ PREDEFINED_USERS.map Prod.fst →
      TennisCourtServer.handle_make_reservation s u (some b) =
        some (s, 409,
          ReservationManager.slotTakenMsg (pyUpper (jvalStr dv)) hour (some w))) ∧
    (∀ s u d0, d0 ≠ "" → pyUpper d0 ∉ DAYS →
      TennisCourtServer.handle_cancel_reservation s u d0 =
        (s, 400, "Invalid day: " ++ pyUpper d0)) ∧
    (∀ s u d0, pyUpper d0 ∈ DAYS →
      (∀ h', ScheduleStore.get_slot s (pyUpper d0) h' ≠ some u) →
      TennisCourtServer.handle_cancel_reservation s u d0 =
        (s, 404, ReservationManager.noReservationMsg (pyUpper d0))) := by
  refine ⟨fun s u => rfl, ?_, ?_, ?_, ?_, ?_, ?_, ?_, ?_⟩
  · intro s u b hmiss
    rw [TennisCourtServer.handle_make_reservation]
    rcases hmiss with h | h
    · rw [h]
    · rcases hdv : lookupA "day" b with _ | dv
      · rfl
      · rw [h]
  · intro s u b dv hv hd hh hint
    rw [TennisCourtServer.handle_make_reservation, hd, hh]
    simp only [hint]
  · intro s u b dv hv hour hd hh hint hday
    have hfalse : is_valid_day (pyUpper (pyUpper (jvalStr dv))) = false :=
      Bool.eq_false_iff.mpr (fun ht => hday (by
        rw [is_valid_day, pyUpper_idem, pyUpper_idem] at ht
        simpa [List.contains] using ht))
    rw [TennisCourtServer.handle_make_reservation, hd, hh]
    simp only [hint]
    rw [ReservationManager.make_reservation]
    simp only [hfalse, Bool.not_eq_true, not_false_eq_true, if_true, ite_true,
      Bool.false_eq_true, if_pos]
    have hmsg := status_400_of_no_pair_lr (invalidDayMsg_no_pair (jvalStr dv))
    rw [pyUpper_idem]
    rw [hmsg]
  · intro s u b dv hv hour hd hh hint hday hbad
    have hvd : is_valid_day (pyUpper (pyUpper (jvalStr dv))) = true := by
      rw [is_valid_day, pyUpper_idem, pyUpper_idem]
      simpa [List.contains] using hday
    have hvh : is_valid_hour hour = false :=
      Bool.eq_false_iff.mpr (fun ht => hbad (is_valid_hour_iff.mp ht))
    rw [TennisCourtServer.handle_make_reservation, hd, hh]
    simp only [hint]
    rw [ReservationManager.make_reservation]
    simp only [hvd, hvh]
    have hmsg := status_400_of_no_pair_lr (invalidHourMsg_no_pair hour)
    simp [hmsg]
  · intro s u b dv hv hour hWF hd hh hint hday hbounds hex
    obtain ⟨h0, hown⟩ := hex
    have hvd : is_valid_day (pyUpper (pyUpper (jvalStr dv))) = true := by
      rw [is_valid_day, pyUpper_idem, pyUpper_idem]
      simpa [List.contains] using hday
    have hvh : is_valid_hour hour = true := is_valid_hour_iff.mpr hbounds
    have hmem : h0 ∈ HOURS := hour_mem_of_get_slot_some hWF hown
    have hown' : ScheduleStore.get_slot s (pyUpper (pyUpper (jvalStr dv))) h0 =
        some u := by rw [pyUpper_idem]; exact hown
    obtain ⟨r, hr⟩ := gurfd_isSome_of hmem hown'
    obtain ⟨hru, hrd, hrmem, hrslot⟩ := gurfd_eq_some hr
    refine ⟨r.hour, ?_⟩
    rw [TennisCourtServer.handle_make_reservation, hd, hh]
    simp only [hint]
    rw [ReservationManager.make_reservation]
    simp only [hvd, hvh, hr]
    have hst : TennisCourtServer.reservation_fail_status
        (ReservationManager.alreadyBookedMsg (pyUpper (pyUpper (jvalStr dv)))
          r.hour) = 403 := by
      rw [TennisCourtServer.reservation_fail_status,
        if_pos (alreadyBookedMsg_contains_probe1 _ _)]
    simp only [pyUpper_idem] at hst ⊢
    simp [hst]
  · intro s u b dv hv hour w hd hh hint hday hbounds hno hw hwmem
    have hvd : is_valid_day (pyUpper (pyUpper (jvalStr dv))) = true := by
      rw [is_valid_day, pyUpper_idem, pyUpper_idem]
      simpa [List.contains] using hday
    have hvh : is_valid_hour hour = true := is_valid_hour_iff.mpr hbounds
    have hgur : ScheduleStore.get_user_reservation_for_day s u
        (pyUpper (pyUpper (jvalStr dv))) = none := by
      rw [pyUpper_idem]
      exact gurfd_eq_none_iff.mpr (fun h' _ => hno h')
    have hav : ScheduleStore.is_slot_available s
        (pyUpper (pyUpper (jvalStr dv))) hour = false := by
      rw [pyUpper_idem]
      simp [ScheduleStore.is_slot_available, hw]
    have hwh : ('h' : Char) ∉ w.data := by
      fin_cases hwmem <;> decide
    have hst : TennisCourtServer.reservation_fail_status
        (ReservationManager.slotTakenMsg (pyUpper (jvalStr dv)) hour (some w)) =
        409 := by
      rw [TennisCourtServer.reservation_fail_status,
        if_neg (by simp [slotTakenMsg_no_probe1 (jvalStr dv) hour w hwh]),
        if_pos (slotTakenMsg_contains_probe2 _ _ _)]
    rw [TennisCourtServer.handle_make_reservation, hd, hh]
    simp only [hint]
    rw [ReservationManager.make_reservation]
    simp only [hvd, hvh, hgur, hav]
    simp only [pyUpper_idem]
    simp [hw, hst]
  · intro s u d0 hne hday
    have hdata : d0.data ≠ [] := by
      intro h
      apply hne
      cases d0 with
      | mk l =>
        simp only at h
        rw [h]
    have hempty : (pyUpper d0).data.isEmpty = false := by
      rw [pyUpper]
      cases hd : d0.data with
      | nil => exact absurd hd hdata
      | cons c t => simp
    have hvd : is_valid_day (pyUpper (pyUpper d0)) = false :=
      Bool.eq_false_iff.mpr (fun ht => hday (by
        rw [is_valid_day, pyUpper_idem, pyUpper_idem] at ht
        simpa [List.contains] using ht))
    have hvd2 : is_valid_day (pyUpper d0) = false :=
      Bool.eq_false_iff.mpr (fun ht => hday (by
        rw [is_valid_day, pyUpper_idem] at ht
        simpa [List.contains] using ht))
    rw [TennisCourtServer.handle_cancel_reservation]
    simp only [hempty, Bool.false_eq_true, if_false, ite_false]
    rw [ReservationManager.cancel_reservation]
    have hst := invalidDay_contains_probe (pyUpper d0)
    simp [pyUpper_idem, hvd2, hst]
  · intro s u d0 hday hno
    have hne2 : pyUpper d0 ≠ "" := fun he => absurd (he ▸ hday) (by decide)
    have hempty : (pyUpper d0).data.isEmpty = false := by
      cases hdd : (pyUpper d0).data with
      | nil => exact absurd (String.ext hdd) hne2
      | cons c t => simp
    have hvd2 : is_valid_day (pyUpper d0) = true := by
      rw [is_valid_day, pyUpper_idem]
      simpa [List.contains] using hday
    have hgur2 : ScheduleStore.get_user_reservation_for_day s u (pyUpper d0) =
        none := gurfd_eq_none_iff.mpr (fun h' _ => hno h')
    rw [TennisCourtServer.handle_cancel_reservation]
    simp only [hempty, Bool.false_eq_true, if_false, ite_false]
    rw [ReservationManager.cancel_reservation]
    have hst := noReservationMsg_no_invalid_day d0
    simp [pyUpper_idem, hvd2, hgur2, hst]

/-- Witness for C7 at the 409 case: `user1` requests WED 14 which
`user2` already owns. -/
theorem c7_witness :
    TennisCourtServer.handle_make_reservation
      (ScheduleStore.setSlot ScheduleStore.freshStore "WED" 14 (some "user2"))
      "user1" (some [("day", JVal.jstr "WED"), ("hour", JVal.jint 14)]) =
      some (ScheduleStore.setSlot ScheduleStore.freshStore "WED" 14 (some "user2"),
        409, ReservationManager.slotTakenMsg "WED" 14 (some "user2")) := by
  have hup : pyUpper "WED" = "WED" := by decide
  have h := c7_reservation_status_mapping.2.2.2.2.2.2.1
    (ScheduleStore.setSlot ScheduleStore.freshStore "WED" 14 (some "user2"))
    "user1" [("day", JVal.jstr "WED"), ("hour", JVal.jint 14)]
    (JVal.jstr "WED") (JVal.jint 14) 14 "user2" (by decide) (by decide)
    (by decide) (by decide) (by decide)
    (fun h0 => by
      show ¬ ScheduleStore.get_slot _ (pyUpper "WED") h0 = some "user1"
      rw [hup]
      by_cases he : h0 = 14
      · subst he
        intro hc
        exact absurd hc (by decide)
      · intro hc
        rw [get_slot_setSlot_ne _ _ _ _ (fun hp => he hp.2), get_slot_fresh] at hc
        cases hc)
    (by rw [show jvalStr (JVal.jstr "WED") = "WED" from rfl, hup]; decide)
    (by decide)
  rw [show jvalStr (JVal.jstr "WED") = "WED" from rfl, hup] at h
  exact h

/-- C8: `parse_request` fails exactly when the buffer cannot be decoded
as text (the `none` input, standing for a non-UTF-8 buffer) or when the
request line does not split into exactly three space-separated tokens;
on every other input it returns a structured request. -/
theorem c8_parse_request_malformed_iff :
    HTTPHandler.parse_request none = none ∧
    (∀ s : String, HTTPHandler.parse_request (some s) = none ↔
      request_line_token_count s ≠ 3) ∧
    (∀ s : String, request_line_token_count s = 3 →
      ∃ req, HTTPHandler.parse_request (some s) = some req) := by
  refine ⟨rfl, ?_, ?_⟩
  · intro s
    rw [HTTPHandler.parse_request, request_line_token_count]
    split_ifs with hc
    · simpa using hc
    · rw [not_not] at hc
      constructor
      · intro h
        exact h.elim
      · intro h
        exact absurd hc h
  · intro s h3
    rw [request_line_token_count] at h3
    rw [HTTPHandler.parse_request]
    split_ifs with hc
    · exact absurd h3 hc
    · exact ⟨_, rfl⟩

/-- Witness for C8: a well-formed GET request parses. -/
theorem c8_witness :
    ∃ req, HTTPHandler.parse_request
      (some "GET /schedule?day=MON HTTP/1.1\r\nHost: x\r\n\r\n") = some req :=
  c8_parse_request_malformed_iff.2.2
    "GET /schedule?day=MON HTTP/1.1\r\nHost: x\r\n\r\n" (by decide)
